import Mathlib

/-!
Shallow embedding of the maze game's two engines:

* the command-script interpreter of `src/components/game-interface.tsx`
  (`CodeExecutor.parseCode`, `CodeExecutor.executeCode`,
  `CodeExecutor.executeCommand`, `CodeExecutor.getForwardPosition`,
  `CodeExecutor.isValidPosition`, `CodeExecutor.isAtGoal`), and
* the grid search visualizer of `src/unnamed/part_001` (`runAlgorithm`,
  `getNeighbors`, `calculateHeuristic`).

JavaScript numbers are modelled as `Int` (coordinates) and `Nat`
(counters); the `Infinity` sentinel of node distances is modelled as
`Option Nat` with `none` standing for positive infinity.  Strings are
modelled as Lean `String` / `List Char`.
-/

namespace MazeGame

/-- Tile kinds of the maze grid (`enum TileType`). -/
inductive TileType where
  | EMPTY
  | WALL
  | GOAL
deriving DecidableEq, Repr

/-- The agent (`interface Agent`).  `direction` is the `Direction` enum
value 0–3 (NORTH, EAST, SOUTH, WEST); every write in the source is taken
modulo 4, so the value set is exactly `Fin 4`. -/
structure Agent where
  row : Int
  col : Int
  direction : Fin 4
  totalSteps : Nat
deriving DecidableEq, Repr

/-- The game state handed to `CodeExecutor` (`interface GameState`). -/
structure GameState where
  maze : List (List TileType)
  agent : Agent
  goalPos : Int × Int
  output : List String
  isComplete : Bool
deriving DecidableEq, Repr

/-!
## The parser (`CodeExecutor.parseCode`)

`parseCode` splits the script on newlines, trims each line, skips blank
lines and lines starting with `#`, and then tests three JavaScript
regular expressions in order:

* `/forward$$(\d+)$$/` — the literal text `forward`, two `$` end-of-input
  anchors, then one or more digits (captured);
* `/left$$$$/` — the literal text `left` followed by two `$` anchors;
* `/right$$$$/` — the literal text `right` followed by two `$` anchors.

A JavaScript regex without the `m` flag matches `$` only at the very end
of the input, and `$` consumes no characters.  The regex engine searches
for the leftmost start position at which the whole pattern matches, so:

* the `forward` pattern matches at position `i` iff the characters
  `forward` occupy `[i, i+7)`, position `i+7` is the end of the string
  (twice, which is the same condition), and a non-empty run of digits
  begins at position `i+7` — which is the end of the string, so the run
  is always empty and the pattern can never match;
* the `left` (resp. `right`) pattern matches iff the trimmed line ends
  with the literal text `left` (resp. `right`).

The functions below embed exactly this search-at-every-position
semantics.
-/

/-- The maximal run of decimal digits at the front of `cs`
(the greedy `(\d+)` capture; `\d` is `[0-9]`, i.e. `Char.isDigit`). -/
def digitRun (cs : List Char) : List Char :=
  cs.takeWhile Char.isDigit

/-- `Number.parseInt` on a non-empty string of decimal digits. -/
def parseNatDigits (ds : List Char) : Nat :=
  ds.foldl (fun n c => n * 10 + (c.toNat - 48)) 0

/-- Attempt to match `/forward$$(\d+)$$/` with the match starting at
position `i` of `cs`: the literal `forward` at `i`, end of input at
`i + 7` (asserted twice), then a non-empty digit run (necessarily
starting at the end of the string).  Returns the parsed capture on a
match. -/
def forwardMatchAt (cs : List Char) (i : Nat) : Option Nat :=
  if "forward".data.isPrefixOf (cs.drop i)
      && (i + 7 == cs.length) && (i + 7 == cs.length)
      && !(digitRun (cs.drop (i + 7))).isEmpty
  then some (parseNatDigits (digitRun (cs.drop (i + 7))))
  else none

/-- `trimmed.match(/forward$$(\d+)$$/)`: leftmost-position search. -/
def forwardMatch (cs : List Char) : Option Nat :=
  (List.range (cs.length + 1)).findSome? (forwardMatchAt cs)

/-- `trimmed.match(/left$$$$/)` and `trimmed.match(/right$$$$/)`: the
pattern `lit` followed by two end anchors matches somewhere in `cs` iff
`cs` ends with `lit`. -/
def endAnchoredMatch (lit : List Char) (cs : List Char) : Bool :=
  (List.range (cs.length + 1)).any (fun i => cs.drop i == lit)

/-- Split a character list at `'\n'` (the `code.split("\n")` step). -/
def splitLinesAux : List Char → List Char → List (List Char)
  | [], acc => [acc.reverse]
  | c :: rest, acc =>
    if c = '\n' then acc.reverse :: splitLinesAux rest []
    else splitLinesAux rest (c :: acc)

def splitLines (cs : List Char) : List (List Char) :=
  splitLinesAux cs []

/-- A JavaScript-whitespace test for `String.prototype.trim`
(ASCII whitespace suffices for the scripts at hand). -/
def isSpaceChar (c : Char) : Bool :=
  c = ' ' || c = '\t' || c = '\n' || c = '\r'

/-- `line.trim()`. -/
def trimChars (cs : List Char) : List Char :=
  ((cs.dropWhile isSpaceChar).reverse.dropWhile isSpaceChar).reverse

/-- Processing of one line inside the `for (const line of lines)` loop of
`parseCode`: skip blank and `#` lines, then try the three patterns in
order, pushing `steps` copies of `"forward"`, one `"left"`, or one
`"right"`. -/
def parseLineStep (commands : List String) (line : List Char) : List String :=
  let trimmed := trimChars line
  if trimmed ≠ [] && !(trimmed.headD ' ' == '#') then
    match forwardMatch trimmed with
    | some steps => commands ++ List.replicate steps "forward"
    | none =>
      if endAnchoredMatch "left".data trimmed then commands ++ ["left"]
      else if endAnchoredMatch "right".data trimmed then commands ++ ["right"]
      else commands
  else commands

/-- `CodeExecutor.parseCode`. -/
def parseCode (code : String) : List String :=
  (splitLines code.data).foldl parseLineStep []

/-!
## The interpreter (`CodeExecutor.executeCommand` / `executeCode`)
-/

/-- The `deltas` table of `CodeExecutor.getForwardPosition`, indexed by
the `Direction` enum value (the final case is direction 3, WEST; the
index is a `Fin 4`, so no other value can occur). -/
def dirDelta (d : Fin 4) : Int × Int :=
  match d.val with
  | 0 => (-1, 0)
  | 1 => (0, 1)
  | 2 => (1, 0)
  | _ => (0, -1)

/-- `CodeExecutor.getForwardPosition`. -/
def getForwardPosition (a : Agent) : Int × Int :=
  (a.row + (dirDelta a.direction).1, a.col + (dirDelta a.direction).2)

/-- `CodeExecutor.isValidPosition`. -/
def isValidPosition (gs : GameState) (row col : Int) : Bool :=
  0 ≤ row && row < gs.maze.length && 0 ≤ col && col < (gs.maze.headD []).length

/-- The maze cell read `maze[row][col]` (only performed by the source
after `isValidPosition` has succeeded, so `row` and `col` are
non-negative and `row` is a real row index there). -/
def mazeAt (maze : List (List TileType)) (row col : Int) : TileType :=
  (maze.getD row.toNat []).getD col.toNat TileType.EMPTY

/-- `CodeExecutor.isAtGoal`. -/
def isAtGoal (gs : GameState) : Bool :=
  gs.agent.row == gs.goalPos.1 && gs.agent.col == gs.goalPos.2

/-- `CodeExecutor.executeCommand`.  The source mutates
`this.gameState.agent` and returns `{success, error?}`; here the updated
state is returned together with the optional error message (`none` means
success, and on failure the returned state is the input state, exactly as
the source leaves the agent untouched). -/
def executeCommand (gs : GameState) (command : String) : GameState × Option String :=
  match command with
  | "forward" =>
    let newPos := getForwardPosition gs.agent
    if !isValidPosition gs newPos.1 newPos.2 then
      (gs, some "Hit boundary!")
    else if mazeAt gs.maze newPos.1 newPos.2 = TileType.WALL then
      (gs, some "Hit wall!")
    else
      ({ gs with agent := { gs.agent with
          row := newPos.1, col := newPos.2,
          totalSteps := gs.agent.totalSteps + 1 } }, none)
  | "left" =>
    ({ gs with agent := { gs.agent with
        direction := ⟨(gs.agent.direction.val + 3) % 4, Nat.mod_lt _ (by omega)⟩ } }, none)
  | "right" =>
    ({ gs with agent := { gs.agent with
        direction := ⟨(gs.agent.direction.val + 1) % 4, Nat.mod_lt _ (by omega)⟩ } }, none)
  | c => (gs, some ("Unknown command: " ++ c))

/-- `this.maxSteps` set in the `CodeExecutor` constructor. -/
def maxSteps : Nat := 100

/-- The result record of `CodeExecutor.executeCode`
(`{success, steps, output}`), together with the executor's game state
after the run (read by the component as `executor.gameState`). -/
structure ExecOutcome where
  success : Bool
  steps : Nat
  output : List String
  finalState : GameState
deriving DecidableEq, Repr

/-- The `for (const command of this.commands)` loop of
`CodeExecutor.executeCode`, including the step-limit check at the top of
each iteration, the per-command error exit, the goal short-circuit, and
the trailing goal-not-reached check. -/
def execLoop (gs : GameState) : List String → ExecOutcome
  | [] =>
    if !isAtGoal gs then
      let out := gs.output ++ ["❌ Code completed but goal not reached"]
      ⟨false, gs.agent.totalSteps, out, { gs with output := out }⟩
    else
      ⟨true, gs.agent.totalSteps, gs.output, gs⟩
  | command :: rest =>
    if maxSteps ≤ gs.agent.totalSteps then
      let out := gs.output ++ ["❌ Maximum steps exceeded!"]
      ⟨false, gs.agent.totalSteps, out, { gs with output := out }⟩
    else
      match executeCommand gs command with
      | (gs', some err) =>
        let out := gs'.output ++ ["❌ " ++ err]
        ⟨false, gs'.agent.totalSteps, out, { gs' with output := out }⟩
      | (gs', none) =>
        if isAtGoal gs' then
          let out := gs'.output ++ ["✅ Goal reached!"]
          ⟨true, gs'.agent.totalSteps, out, { gs' with output := out, isComplete := true }⟩
        else
          execLoop gs' rest

/-- `CodeExecutor.executeCode` after the parse step: reset the output and
completion flag, then run the command loop. -/
def executeCommands (gs : GameState) (commands : List String) : ExecOutcome :=
  execLoop { gs with output := [], isComplete := false } commands

/-- `CodeExecutor.executeCode`. -/
def executeCode (gs : GameState) (code : String) : ExecOutcome :=
  executeCommands gs (parseCode code)

/-!
## Auxiliary notions about interpreter runs
-/

/-- A run of the command loop in which every listed command succeeds, the
goal is never reached, and the step-limit check never fires — i.e. the
loop falls through each of these commands into the next iteration. -/
inductive RunsThrough : GameState → List String → GameState → Prop where
  | nil (gs : GameState) : RunsThrough gs [] gs
  | cons {gs gs' gs'' : GameState} {c : String} {cs : List String} :
      gs.agent.totalSteps < maxSteps →
      executeCommand gs c = (gs', none) →
      isAtGoal gs' = false →
      RunsThrough gs' cs gs'' →
      RunsThrough gs (c :: cs) gs''

/-- Executable check for `RunsThrough` (used to produce concrete
derivations by evaluation). -/
def runsThroughChecker (gs : GameState) : List String → Option GameState
  | [] => some gs
  | c :: cs =>
    if gs.agent.totalSteps < maxSteps then
      match executeCommand gs c with
      | (gs', none) => if isAtGoal gs' = false then runsThroughChecker gs' cs else none
      | (_, some _) => none
    else none

/-- The agent-position invariant: inside grid bounds and not on a Wall
cell (the two conditions `executeCommand` validates before committing a
forward move). -/
def posOk (gs : GameState) : Prop :=
  isValidPosition gs gs.agent.row gs.agent.col = true ∧
  mazeAt gs.maze gs.agent.row gs.agent.col ≠ TileType.WALL

instance (gs : GameState) : Decidable (posOk gs) :=
  inferInstanceAs (Decidable (_ ∧ _))

/-!
## Concrete states used as witnesses and counterexamples
-/

/-- A 3×15 corridor maze: one open row of cells (1,1)–(1,13). -/
def corridorMaze : List (List TileType) :=
  [List.replicate 15 TileType.WALL,
   TileType.WALL :: (List.replicate 13 TileType.EMPTY ++ [TileType.WALL]),
   List.replicate 15 TileType.WALL]

/-- Agent at (1,1) facing EAST in the corridor; the goal position (13,13)
is not a cell of this maze, so it can never be reached. -/
def corridorState : GameState :=
  { maze := corridorMaze,
    agent := { row := 1, col := 1, direction := 1, totalSteps := 0 },
    goalPos := (13, 13), output := [], isComplete := false }

/-- One corridor lap: 12 steps east, turn around, 12 steps back, turn
around (24 forward steps, 4 turns). -/
def lapCmds : List String :=
  List.replicate 12 "forward" ++ ["right", "right"] ++
    List.replicate 12 "forward" ++ ["right", "right"]

/-- Four laps and four more forward steps: exactly 100 forward commands,
the last listed command being a forward. -/
def cmds100 : List String :=
  (List.replicate 4 lapCmds).flatten ++ List.replicate 4 "forward"

/-- Where the corridor agent stands after `cmds100`: back at row 1,
column 5, facing EAST, with exactly 100 steps taken. -/
def corridorEndState : GameState :=
  { corridorState with agent := { row := 1, col := 5, direction := 1, totalSteps := 100 } }

/-- A 3×4 maze with two open cells (1,1) and (1,2). -/
def miniMaze : List (List TileType) :=
  [List.replicate 4 TileType.WALL,
   [TileType.WALL, TileType.EMPTY, TileType.EMPTY, TileType.WALL],
   List.replicate 4 TileType.WALL]

/-- Agent at (1,1) facing EAST, goal one cell ahead at (1,2). -/
def miniState : GameState :=
  { maze := miniMaze,
    agent := { row := 1, col := 1, direction := 1, totalSteps := 0 },
    goalPos := (1, 2), output := [], isComplete := false }

/-- `miniState` after one successful forward step onto the goal. -/
def miniGoalState : GameState :=
  { miniState with agent := { row := 1, col := 2, direction := 1, totalSteps := 1 } }

/-- Agent at the top-left corner facing NORTH: the forward target (-1,0)
is outside the grid. -/
def edgeState : GameState :=
  { miniState with agent := { row := 0, col := 0, direction := 0, totalSteps := 0 } }

/-- Agent at (1,1) facing NORTH: the forward target (0,1) is a Wall. -/
def northState : GameState :=
  { miniState with agent := { row := 1, col := 1, direction := 0, totalSteps := 0 } }

/-!
## The grid search visualizer (`src/unnamed/part_001`)

`runAlgorithm` runs a best-first search over a 20×20 grid, keyed by
`distance` (Dijkstra) or `fScore = distance + heuristic` (A*).  Nodes are
addressed by their `(x, y)` coordinates (`Int`, mirroring JavaScript
numbers); per-node mutable fields (`state`, `distance`, `heuristic`,
`fScore`, `parent`) are modelled as finite maps `SPos → _`, and the
`Infinity` distance sentinel as `none : Option Nat`.  The input is the
wall predicate of the grid generated by `initializeGrid` (walls are never
placed on the start/goal corners there, which is hypothesis `hs`/`hg` in
the theorems below).  The wall-clock `executionTime` statistic and the
animation delays are environment behaviour, not algorithm state, and are
not modelled; no claim concerns them.
-/

/-- Grid coordinates `(x, y)`. -/
abbrev SPos : Type := Int × Int

/-- `GRID_SIZE`. -/
def GRID_SIZE : Nat := 20

/-- The node state strings of `type NodeState`. -/
inductive NodeState where
  | wall
  | empty
  | start
  | goal
  | exploring
  | explored
  | path
deriving DecidableEq, Repr

/-- `type AlgorithmType`. -/
inductive AlgorithmType where
  | dijkstra
  | astar
  | bfs
  | dfs
deriving DecidableEq, Repr

/-- The statistics record (`interface AlgorithmStats`), minus the
wall-clock `executionTime` field (see the section comment). -/
structure AlgorithmStats where
  nodesExplored : Nat
  pathLength : Nat
  optimalPath : Bool
  efficiency : Nat
deriving DecidableEq, Repr

/-- The mutable search state: the per-node fields of the `Node` objects
of `newGrid`, plus the loop's `openSet`, `closedSet` and `nodesExplored`
variables and the component's `stats` (threaded through the `setStats`
calls). -/
structure SearchState where
  nstate : SPos → NodeState
  distance : SPos → Option Nat
  heuristic : SPos → Nat
  fScore : SPos → Option Nat
  parent : SPos → Option SPos
  openSet : List SPos
  closedSet : List SPos
  nodesExplored : Nat
  stats : AlgorithmStats

/-- `startNode = newGrid[1][1]`. -/
def startCell : SPos := (1, 1)

/-- `goalNode = newGrid[GRID_SIZE - 2][GRID_SIZE - 2]`. -/
def goalCell : SPos := (18, 18)

/-- `calculateHeuristic` (Manhattan distance). -/
def calculateHeuristic (node goal : SPos) : Nat :=
  (node.1 - goal.1).natAbs + (node.2 - goal.2).natAbs

/-- The bounds check of `getNeighbors`
(`newX >= 0 && newX < GRID_SIZE && newY >= 0 && newY < GRID_SIZE`). -/
def inBounds (p : SPos) : Bool :=
  0 ≤ p.1 && p.1 < (GRID_SIZE : Int) && 0 ≤ p.2 && p.2 < (GRID_SIZE : Int)

/-- `getNeighbors`: the four directions in source order, bounds-checked,
excluding nodes whose current state is `wall`. -/
def getNeighbors (st : SearchState) (node : SPos) : List SPos :=
  [((-1 : Int), (0 : Int)), (1, 0), (0, -1), (0, 1)].filterMap fun d =>
    let newX := node.1 + d.1
    let newY := node.2 + d.2
    if inBounds (newX, newY) ∧ st.nstate (newX, newY) ≠ NodeState.wall
    then some (newX, newY) else none

/-- Comparison of two possibly-infinite distances, as the JavaScript sort
comparator `a - b` orders finite numbers and `Infinity`. -/
def infLE : Option Nat → Option Nat → Bool
  | some a, some b => a ≤ b
  | some _, none => true
  | none, some _ => false
  | none, none => true

/-- Strict counterpart, for the relaxation test `t < neighbor.distance`
(`Infinity < x` is false, `x < Infinity` is true for finite `x`). -/
def infLT : Option Nat → Option Nat → Bool
  | some a, some b => a < b
  | some _, none => true
  | _, _ => false

/-- `current.distance + 1` (`Infinity + 1 = Infinity`). -/
def optAdd1 (d : Option Nat) : Option Nat :=
  d.map (· + 1)

/-- The sort key used by the comparator in the loop: `fScore` for A*,
`distance` otherwise. -/
def sortKey (algo : AlgorithmType) (st : SearchState) (p : SPos) : Option Nat :=
  match algo with
  | .astar => st.fScore p
  | _ => st.distance p

/-- The body of `for (const neighbor of neighbors)`: skip closed
neighbors, relax `distance`/`parent` (and, for A*, `heuristic`/`fScore`)
when the tentative distance improves, and push the neighbor onto the open
set if it is not already there. -/
def relaxNeighbor (algo : AlgorithmType) (cur : SPos) (st : SearchState) (nb : SPos) :
    SearchState :=
  if nb ∈ st.closedSet then st
  else
    let t := optAdd1 (st.distance cur)
    if infLT t (st.distance nb) then
      let st1 := { st with
        distance := fun p => if p = nb then t else st.distance p,
        parent := fun p => if p = nb then some cur else st.parent p }
      let st2 :=
        match algo with
        | .astar =>
          { st1 with
            heuristic := fun p =>
              if p = nb then calculateHeuristic nb goalCell else st1.heuristic p,
            fScore := fun p =>
              if p = nb then t.map (· + calculateHeuristic nb goalCell) else st1.fScore p }
        | _ => st1
      if nb ∈ st2.openSet then st2 else { st2 with openSet := st2.openSet ++ [nb] }
    else st

/-- Outcome of the `while (openSet.length > 0 && !pathFound)` loop.  The
`outOfFuel` constructor is an artifact of the fuel-based embedding; the
theorems prove it is never produced from a reachable initial state with
the fuel budget `searchFuel`. -/
inductive LoopResult where
  | found (st : SearchState)
  | exhausted (st : SearchState)
  | outOfFuel (st : SearchState)

/-- The state carried by a loop outcome. -/
def LoopResult.state : LoopResult → SearchState
  | .found st => st
  | .exhausted st => st
  | .outOfFuel st => st

/-- One decrement of fuel per loop iteration; each iteration closes a
previously unclosed node, and there are only `GRID_SIZE * GRID_SIZE`
nodes, so `GRID_SIZE * GRID_SIZE + 1` iterations can never be reached. -/
def searchFuel : Nat := GRID_SIZE * GRID_SIZE + 1

/-- The search loop: sort the open set by the comparator (JavaScript
`Array.prototype.sort` is stable; a stable insertion sort by the `≤` key
order models it), `shift()` the head, add it to the closed set, stop on
goal, otherwise mark `exploring`, count the expansion, publish the count
to the stats, relax the neighbors, mark `explored`, and iterate. -/
def searchLoop (algo : AlgorithmType) : Nat → SearchState → LoopResult
  | 0, st => .outOfFuel st
  | fuel + 1, st =>
    match List.insertionSort
        (fun a b => infLE (sortKey algo st a) (sortKey algo st b) = true) st.openSet with
    | [] => .exhausted st
    | current :: rest =>
      let st1 := { st with
        openSet := rest,
        closedSet := if current ∈ st.closedSet then st.closedSet else current :: st.closedSet }
      if current = goalCell then .found st1
      else
        let st2 :=
          if st1.nstate current ≠ NodeState.start ∧ st1.nstate current ≠ NodeState.goal then
            { st1 with nstate := fun p =>
                if p = current then NodeState.exploring else st1.nstate p }
          else st1
        let st3 := { st2 with nodesExplored := st2.nodesExplored + 1 }
        let st4 := { st3 with stats := { st3.stats with nodesExplored := st3.nodesExplored } }
        let st5 := (getNeighbors st4 current).foldl (relaxNeighbor algo current) st4
        let st6 :=
          if st5.nstate current ≠ NodeState.start ∧ st5.nstate current ≠ NodeState.goal then
            { st5 with nstate := fun p =>
                if p = current then NodeState.explored else st5.nstate p }
          else st5
        searchLoop algo fuel st6

/-- The `while (current !== null)` path-reconstruction loop: mark each
chain node whose state is neither `start` nor `goal` as `path`, prepend
it (`path.unshift`), and follow the `parent` link.  Fuel-based; `none`
(never produced in reachable states) models fuel exhaustion. -/
def pathWalk : Nat → SearchState → Option SPos → List SPos → Option (SearchState × List SPos)
  | _, st, none, acc => some (st, acc)
  | 0, _, some _, _ => none
  | fuel + 1, st, some cur, acc =>
    let st' :=
      if st.nstate cur ≠ NodeState.start ∧ st.nstate cur ≠ NodeState.goal then
        { st with nstate := fun p => if p = cur then NodeState.path else st.nstate p }
      else st
    pathWalk fuel st' (st'.parent cur) (cur :: acc)

/-- The exact-rational version of the efficiency statistic
`Math.round(Math.max(0, 100 - (nodesExplored / (GRID_SIZE*GRID_SIZE)) * 100))`
(round-half-up; the floating-point evaluation is abstracted to exact
arithmetic — no claim concerns this field). -/
def efficiencyStat (n : Nat) : Nat :=
  (GRID_SIZE * GRID_SIZE - n + 2) / 4

/-- The per-run state of the grid after `runAlgorithm`: the reset applied
to the grid (`state` of previously explored/path nodes back to `empty`,
`distance` 0 on the start node and `Infinity` elsewhere, `fScore`
`Infinity`, `parent` null), plus the A*-specific initialization of the
start node's `heuristic`/`fScore` and the initial `openSet = [startNode]`.
The input `isWall` is the wall predicate of the generated grid. -/
def initialSearchState (isWall : SPos → Bool) (algo : AlgorithmType)
    (prev : AlgorithmStats) : SearchState :=
  { nstate := fun p =>
      if p = startCell then NodeState.start
      else if p = goalCell then NodeState.goal
      else if isWall p then NodeState.wall
      else NodeState.empty,
    distance := fun p => if p = startCell then some 0 else none,
    heuristic := fun p =>
      if algo = .astar ∧ p = startCell then calculateHeuristic startCell goalCell else 0,
    fScore := fun p =>
      if algo = .astar ∧ p = startCell then some (calculateHeuristic startCell goalCell)
      else none,
    parent := fun _ => none,
    openSet := [startCell],
    closedSet := [],
    nodesExplored := 0,
    stats := prev }

/-- The observable outcome of one `runAlgorithm` call: the `pathFound`
flag, the stats record left in the component state, the final grid state,
and the reconstructed `path` list ([] when no path was found). -/
structure RunResult where
  pathFound : Bool
  stats : AlgorithmStats
  final : SearchState
  path : List SPos
  ranOutOfFuel : Bool

/-- `runAlgorithm`: the search runs only for Dijkstra and A*; on success
the path is reconstructed from the goal's parent chain and the stats are
overwritten (`pathLength = path.length - 1`, `optimalPath = pathLength ≤ 35`);
on failure the stats keep whatever the in-loop `setStats` calls left
(`nodesExplored` updated, everything else untouched). -/
def runAlgorithm (isWall : SPos → Bool) (algo : AlgorithmType)
    (prev : AlgorithmStats) : RunResult :=
  if algo = AlgorithmType.dijkstra ∨ algo = AlgorithmType.astar then
    match searchLoop algo searchFuel (initialSearchState isWall algo prev) with
    | .found st =>
      match pathWalk searchFuel st (some goalCell) [] with
      | some (st', path) =>
        { pathFound := true,
          stats := { nodesExplored := st.nodesExplored, pathLength := path.length - 1,
                     optimalPath := path.length - 1 ≤ 35,
                     efficiency := efficiencyStat st.nodesExplored },
          final := st', path := path, ranOutOfFuel := false }
      | none =>
        { pathFound := true, stats := st.stats, final := st, path := [],
          ranOutOfFuel := true }
    | .exhausted st =>
      { pathFound := false, stats := st.stats, final := st, path := [],
        ranOutOfFuel := false }
    | .outOfFuel st =>
      { pathFound := false, stats := st.stats, final := st, path := [],
        ranOutOfFuel := true }
  else
    { pathFound := false, stats := prev, final := initialSearchState isWall algo prev,
      path := [], ranOutOfFuel := false }

/-!
## Specification-side path notions for the search claims
-/

/-- One admissible move of the search graph: `v` is one of the four
neighbors of `u`, in bounds and not a wall. -/
def ValidStep (isWall : SPos → Bool) (u v : SPos) : Prop :=
  inBounds v = true ∧ isWall v = false ∧
    ((v.1 = u.1 - 1 ∧ v.2 = u.2) ∨ (v.1 = u.1 + 1 ∧ v.2 = u.2) ∨
     (v.1 = u.1 ∧ v.2 = u.2 - 1) ∨ (v.1 = u.1 ∧ v.2 = u.2 + 1))

instance (isWall : SPos → Bool) (u v : SPos) : Decidable (ValidStep isWall u v) :=
  inferInstanceAs (Decidable (_ ∧ _))

/-- `PathTo isWall a b n`: there is a walk of exactly `n` admissible
steps from `a` to `b` (built up at the far end, which matches how the
search extends paths). -/
inductive PathTo (isWall : SPos → Bool) : SPos → SPos → Nat → Prop where
  | refl (u : SPos) : PathTo isWall u u 0
  | snoc {u v x : SPos} {n : Nat} :
      PathTo isWall u v n → ValidStep isWall v x → PathTo isWall u x (n + 1)

/-- Reachability. -/
def Reaches (isWall : SPos → Bool) (a b : SPos) : Prop :=
  ∃ n, PathTo isWall a b n

/-- `n` is the optimal shortest-path length from `a` to `b`: attained,
and no walk is shorter. -/
def IsShortestPathLength (isWall : SPos → Bool) (a b : SPos) (n : Nat) : Prop :=
  PathTo isWall a b n ∧ ∀ m, PathTo isWall a b m → n ≤ m

/-- Bool-level step checker for building concrete `PathTo` witnesses. -/
def stepsOk (isWall : SPos → Bool) : SPos → List SPos → Bool
  | _, [] => true
  | u, v :: rest => decide (ValidStep isWall u v) && stepsOk isWall v rest

/-- The heuristic actually used by mode `algo` at node `p` (zero for
Dijkstra, Manhattan distance to the goal for A*). -/
def heuristicOf (algo : AlgorithmType) (p : SPos) : Nat :=
  if algo = AlgorithmType.astar then calculateHeuristic p goalCell else 0

/-- The finite set of grid cells. -/
def cellFinset : Finset SPos :=
  Finset.Ico (0 : Int) 20 ×ˢ Finset.Ico (0 : Int) 20

/-- Walls enclosing the start corner: all four neighbors of (1,1). -/
def wallsAroundStart : SPos → Bool := fun p =>
  decide (p = (0, 1) ∨ p = (2, 1) ∨ p = (1, 0) ∨ p = (1, 2))

/-- A previous stats record with a non-zero path length (as left by the
component after an earlier successful run). -/
def prevStats5 : AlgorithmStats :=
  { nodesExplored := 7, pathLength := 5, optimalPath := true, efficiency := 90 }

/-- All-zero stats (the component's initial / reset statistics). -/
def zeroStats : AlgorithmStats :=
  { nodesExplored := 0, pathLength := 0, optimalPath := false, efficiency := 0 }

/-- A grid that is all wall except one L-shaped corridor from (1,1) to
(18,18): east along y = 1, then south along x = 18. -/
def corridorWalls : SPos → Bool := fun p =>
  !((p.2 == 1 && 1 ≤ p.1 && p.1 ≤ 18) || (p.1 == 18 && 1 ≤ p.2 && p.2 ≤ 18))

/-- The 34 cells after (1,1) along the L-shaped corridor. -/
def corridorPath : List SPos :=
  ((List.range 17).map fun i => ((i : Int) + 2, 1)) ++
    ((List.range 17).map fun i => (18, (i : Int) + 2))

/-- The search-loop invariant, for wall predicate `w` and mode `algo`
(holding between loop iterations). -/
structure SInv (w : SPos → Bool) (algo : AlgorithmType) (st : SearchState) : Prop where
  wall_state : ∀ p, st.nstate p = NodeState.wall ↔ w p = true
  start_state : ∀ p, st.nstate p = NodeState.start ↔ p = startCell
  goal_state : ∀ p, st.nstate p = NodeState.goal ↔ p = goalCell
  open_nodup : st.openSet.Nodup
  closed_nodup : st.closedSet.Nodup
  open_closed_disj : ∀ p, p ∈ st.openSet → p ∉ st.closedSet
  open_ok : ∀ p ∈ st.openSet, inBounds p = true ∧ w p = false
  closed_ok : ∀ p ∈ st.closedSet, inBounds p = true ∧ w p = false
  key_sync : ∀ p ∈ st.openSet, ∃ d, st.distance p = some d ∧
      sortKey algo st p = some (d + heuristicOf algo p)
  dist_start : st.distance startCell = some 0
  dist_real : ∀ p d, st.distance p = some d → PathTo w startCell p d
  dist_mem : ∀ p d, st.distance p = some d → p ∈ st.openSet ∨ p ∈ st.closedSet
  start_mem : startCell ∈ st.openSet ∨ startCell ∈ st.closedSet
  goal_unclosed : goalCell ∉ st.closedSet
  closed_min : ∀ u ∈ st.closedSet, ∃ du, st.distance u = some du ∧
      ∀ m, PathTo w startCell u m → du ≤ m
  closed_exp : ∀ u ∈ st.closedSet, ∀ v, ValidStep w u v →
      (v ∈ st.closedSet ∨ v ∈ st.openSet) ∧
      ∃ du dv, st.distance u = some du ∧ st.distance v = some dv ∧ dv ≤ du + 1
  par_chain : ∀ p q, st.parent p = some q → ValidStep w q p ∧ q ∈ st.closedSet ∧
      ∃ dp dq, st.distance p = some dp ∧ st.distance q = some dq ∧ dp = dq + 1
  par_some : ∀ p d, st.distance p = some d → p = startCell ∨ ∃ q, st.parent p = some q
/-- The pop of one loop iteration (`openSet.shift()` plus
`closedSet.add(current)`). -/
def popState (st : SearchState) (current : SPos) (rest : List SPos) : SearchState :=
  { st with
    openSet := rest,
    closedSet := if current ∈ st.closedSet then st.closedSet else current :: st.closedSet }
/-- The guarded node-state mark (`if (current.state !== "start" &&
current.state !== "goal") current.state = ...`). -/
def markState (st : SearchState) (current : SPos) (ns : NodeState) : SearchState :=
  if st.nstate current ≠ NodeState.start ∧ st.nstate current ≠ NodeState.goal then
    { st with nstate := fun p => if p = current then ns else st.nstate p }
  else st
/-- The state transformation of one full non-goal loop iteration. -/
def iterStep (algo : AlgorithmType) (st : SearchState) (current : SPos)
    (rest : List SPos) : SearchState :=
  let st1 := popState st current rest
  let st2 := markState st1 current NodeState.exploring
  let st3 := { st2 with nodesExplored := st2.nodesExplored + 1 }
  let st4 := { st3 with stats := { st3.stats with nodesExplored := st3.nodesExplored } }
  let st5 := (getNeighbors st4 current).foldl (relaxNeighbor algo current) st4
  markState st5 current NodeState.explored

/-- The empty wall grid. -/
def noWalls : SPos → Bool := fun _ => false
/-- What holds of the state delivered by a successful search. -/
structure FoundInv (w : SPos → Bool) (st : SearchState) : Prop where
  dist_goal : ∃ d, st.distance goalCell = some d ∧ PathTo w startCell goalCell d ∧
      ∀ m, PathTo w startCell goalCell m → d ≤ m
  dist_start : st.distance startCell = some 0
  dist_real : ∀ p d, st.distance p = some d → PathTo w startCell p d
  dist_inB : ∀ p d, st.distance p = some d → inBounds p = true
  par_chain : ∀ p q, st.parent p = some q → ValidStep w q p ∧
      ∃ dp dq, st.distance p = some dp ∧ st.distance q = some dq ∧ dp = dq + 1
  par_some : ∀ p d, st.distance p = some d → p = startCell ∨ ∃ q, st.parent p = some q
  start_state : ∀ p, st.nstate p = NodeState.start ↔ p = startCell
  goal_state : ∀ p, st.nstate p = NodeState.goal ↔ p = goalCell


end MazeGame

namespace MazeGame

/-!
## Theorems about the parser
-/

/-- The forward pattern can match at no position: the `(\d+)` group would
have to match a non-empty digit run starting at the end of the input. -/
lemma forwardMatchAt_eq_none (cs : List Char) (i : Nat) : forwardMatchAt cs i = none := by
  unfold forwardMatchAt
  by_cases h : i + 7 = cs.length
  · have hd : cs.drop (i + 7) = [] := by simp [h]
    simp [hd, digitRun]
  · have hb : (i + 7 == cs.length) = false := by simpa using h
    simp [hb]

lemma forwardMatch_eq_none (cs : List Char) : forwardMatch cs = none := by
  unfold forwardMatch
  exact List.findSome?_eq_none_iff.mpr fun i _ => forwardMatchAt_eq_none cs i

lemma mem_parseLineStep {s : String} {acc : List String} {line : List Char}
    (h : s ∈ parseLineStep acc line) : s ∈ acc ∨ s = "left" ∨ s = "right" := by
  unfold parseLineStep at h
  simp only [forwardMatch_eq_none] at h
  split_ifs at h with h1 h2 h3 <;>
    first
      | (simp only [List.mem_append, List.mem_singleton] at h; tauto)
      | tauto

lemma mem_foldl_parseLineStep {s : String} :
    ∀ (lines : List (List Char)) (acc : List String),
      s ∈ lines.foldl parseLineStep acc → s ∈ acc ∨ s = "left" ∨ s = "right" := by
  intro lines
  induction lines with
  | nil => intro acc h; exact Or.inl h
  | cons l ls ih =>
    intro acc h
    rcases ih (parseLineStep acc l) h with h' | h' | h'
    · rcases mem_parseLineStep h' with h'' | h'' | h''
      · exact Or.inl h''
      · exact Or.inr (Or.inl h'')
      · exact Or.inr (Or.inr h'')
    · exact Or.inr (Or.inl h')
    · exact Or.inr (Or.inr h')

/-- Claim C10: for every input string, `parseCode` emits no `"forward"`
command at all — the forward pattern (with its two end-of-input anchors
between the literal text and the required digits) matches no line, so the
returned command list never contains `"forward"`. -/
theorem parseCode_never_emits_forward :
    (∀ cs : List Char, forwardMatch cs = none) ∧
    ∀ code : String, "forward" ∉ parseCode code := by
  refine ⟨forwardMatch_eq_none, ?_⟩
  intro code h
  rcases mem_foldl_parseLineStep (splitLines code.data) [] h with h' | h' | h' <;> simp_all

/-- Claim C1 (evaluation at the failing input): contrary to the claim,
`parseCode` applied to the script `forward(5)` yields no commands at all
instead of five `Forward` primitives: the forward regular expression can
never match. -/
theorem parseCode_forward5_empty : parseCode "forward(5)" = [] := by decide

/-!
## Theorems about the interpreter
-/

/-- Framing: `executeCommand` never touches the maze, the goal position,
the output log, or the completion flag, and increments the step counter
by at most one. -/
lemma executeCommand_frame (gs : GameState) (c : String) :
    (executeCommand gs c).1.maze = gs.maze ∧
    (executeCommand gs c).1.goalPos = gs.goalPos ∧
    (executeCommand gs c).1.output = gs.output ∧
    (executeCommand gs c).1.isComplete = gs.isComplete ∧
    (executeCommand gs c).1.agent.totalSteps ≤ gs.agent.totalSteps + 1 := by
  unfold executeCommand
  split <;> dsimp only <;> first
    | (refine ⟨rfl, rfl, rfl, rfl, ?_⟩; dsimp only; omega)
    | (split_ifs <;> (refine ⟨rfl, rfl, rfl, rfl, ?_⟩; dsimp only; omega))

lemma RunsThrough.steps_le {gs gs' : GameState} {cs : List String}
    (h : RunsThrough gs cs gs') :
    gs'.agent.totalSteps ≤ max gs.agent.totalSteps maxSteps := by
  induction h with
  | nil gs => exact le_max_left _ _
  | @cons g g' g'' c cs h1 h2 h3 _ ih =>
    have hb := (executeCommand_frame g c).2.2.2.2
    rw [h2] at hb
    dsimp only at hb
    unfold maxSteps at *
    omega

lemma RunsThrough.output_eq {gs gs' : GameState} {cs : List String}
    (h : RunsThrough gs cs gs') : gs'.output = gs.output := by
  induction h with
  | nil gs => rfl
  | @cons g g' g'' c cs h1 h2 h3 _ ih =>
    have hb := (executeCommand_frame g c).2.2.1
    rw [h2] at hb
    rw [ih, hb]

/-- Commands that run through without any exit are transparent to the
rest of the loop. -/
lemma execLoop_append {gs gs₁ : GameState} {pre : List String}
    (h : RunsThrough gs pre gs₁) (rest : List String) :
    execLoop gs (pre ++ rest) = execLoop gs₁ rest := by
  induction h with
  | nil gs => rfl
  | @cons g g' g'' c cs h1 h2 h3 _ ih =>
    rw [List.cons_append]
    conv_lhs => unfold execLoop
    rw [if_neg (by omega), h2]
    simp only [h3, Bool.false_eq_true, if_false]
    exact ih

lemma runsThroughChecker_sound :
    ∀ (cs : List String) (gs gs' : GameState),
      runsThroughChecker gs cs = some gs' → RunsThrough gs cs gs' := by
  intro cs
  induction cs with
  | nil =>
    intro gs gs' h
    unfold runsThroughChecker at h
    cases h
    exact RunsThrough.nil gs
  | cons c cs ih =>
    intro gs gs' h
    unfold runsThroughChecker at h
    split_ifs at h with h1
    split at h
    next gs'' heq =>
      split_ifs at h with h2
      exact RunsThrough.cons h1 heq h2 (ih _ _ h)
    next heq => exact absurd h (by simp)

/-- Claim C3 (counterexample): a command sequence whose execution takes
exactly 100 forward steps and then ends, without reaching the goal, fails
with the goal-not-reached log entry — not the step-limit-exceeded entry
required by the claim — even though `totalSteps` is 100. -/
theorem step_limit_exact100_counterexample :
    (executeCommands corridorState cmds100).success = false ∧
    (executeCommands corridorState cmds100).steps = 100 ∧
    (executeCommands corridorState cmds100).output =
      ["❌ Code completed but goal not reached"] ∧
    "❌ Maximum steps exceeded!" ∉ (executeCommands corridorState cmds100).output := by
  decide

/-- Claim C3 (amended): if execution of a prefix of the commands takes
100 forward steps without failing or reaching the goal, and at least one
command remains queued after that prefix, then the run fails with the
step-limit-exceeded log entry and reports `totalSteps` equal to exactly
100. -/
theorem step_limit_enforced (gs : GameState) (pre : List String) (gs₁ : GameState)
    (c : String) (rest : List String)
    (h0 : gs.agent.totalSteps = 0)
    (hpre : RunsThrough { gs with output := [], isComplete := false } pre gs₁)
    (hsteps : maxSteps ≤ gs₁.agent.totalSteps) :
    (executeCommands gs (pre ++ c :: rest)).success = false ∧
    (executeCommands gs (pre ++ c :: rest)).steps = 100 ∧
    (executeCommands gs (pre ++ c :: rest)).output =
      gs₁.output ++ ["❌ Maximum steps exceeded!"] ∧
    gs₁.agent.totalSteps = 100 := by
  have hle := hpre.steps_le
  rw [show ({ gs with output := [], isComplete := false } : GameState).agent = gs.agent
    from rfl] at hle
  have h100 : gs₁.agent.totalSteps = 100 := by
    unfold maxSteps at hsteps hle
    omega
  have hE : execLoop gs₁ (c :: rest) =
      ⟨false, gs₁.agent.totalSteps, gs₁.output ++ ["❌ Maximum steps exceeded!"],
        { gs₁ with output := gs₁.output ++ ["❌ Maximum steps exceeded!"] }⟩ := by
    conv_lhs => unfold execLoop
    rw [if_pos hsteps]
  unfold executeCommands
  rw [execLoop_append hpre, hE]
  exact ⟨rfl, h100, rfl, h100⟩

theorem step_limit_enforced_witness :
    (executeCommands corridorState (cmds100 ++ ["left"])).success = false ∧
    (executeCommands corridorState (cmds100 ++ ["left"])).steps = 100 := by
  have hrt : runsThroughChecker { corridorState with output := [], isComplete := false } cmds100
      = some corridorEndState := by decide
  have h := step_limit_enforced corridorState cmds100 corridorEndState "left" []
    rfl (runsThroughChecker_sound _ _ _ hrt) (by decide)
  exact ⟨h.1, h.2.1⟩

/-- Claim C4: if, after a prefix of commands that runs through, some
command executes successfully and leaves the agent on the goal position,
the run stops immediately with `success = true`; the result — including
the final game state and the log — does not depend on the remaining
queued commands, which are never executed. -/
theorem goal_short_circuit (gs : GameState) (pre : List String) (gs₁ : GameState)
    (c : String) (gs₂ : GameState) (rest : List String)
    (hpre : RunsThrough { gs with output := [], isComplete := false } pre gs₁)
    (hlt : gs₁.agent.totalSteps < maxSteps)
    (hcmd : executeCommand gs₁ c = (gs₂, none))
    (hgoal : isAtGoal gs₂ = true) :
    executeCommands gs (pre ++ c :: rest) =
      ⟨true, gs₂.agent.totalSteps, gs₂.output ++ ["✅ Goal reached!"],
        { gs₂ with output := gs₂.output ++ ["✅ Goal reached!"], isComplete := true }⟩ := by
  unfold executeCommands
  rw [execLoop_append hpre]
  conv_lhs => unfold execLoop
  rw [if_neg (by omega), hcmd]
  simp only [hgoal, if_true]

theorem goal_short_circuit_witness :
    executeCommands miniState ("forward" :: ["left", "right"]) =
      ⟨true, 1, ["✅ Goal reached!"],
        { miniGoalState with output := ["✅ Goal reached!"], isComplete := true }⟩ := by
  have h := goal_short_circuit miniState [] { miniState with output := [], isComplete := false }
    "forward" miniGoalState ["left", "right"]
    (RunsThrough.nil _) (by decide) (by decide) (by decide)
  exact h.trans (by decide)

/-- Claim C5: a `Forward` command computes its target cell from the
facing direction via the delta table NORTH:(-1,0), EAST:(0,+1),
SOUTH:(+1,0), WEST:(0,-1); it fails with the out-of-bounds error exactly
when the target is outside the grid, fails with the wall-collision error
exactly when the target cell is a Wall, and otherwise commits the move
and increments the step counter by one; on either failure the returned
state is the input state (position, direction and step count
unchanged). -/
theorem forward_semantics (gs : GameState) :
    (dirDelta 0 = (-1, 0) ∧ dirDelta 1 = (0, 1) ∧ dirDelta 2 = (1, 0) ∧ dirDelta 3 = (0, -1)) ∧
    getForwardPosition gs.agent =
      (gs.agent.row + (dirDelta gs.agent.direction).1,
       gs.agent.col + (dirDelta gs.agent.direction).2) ∧
    (isValidPosition gs (getForwardPosition gs.agent).1 (getForwardPosition gs.agent).2 = false →
      executeCommand gs "forward" = (gs, some "Hit boundary!")) ∧
    (isValidPosition gs (getForwardPosition gs.agent).1 (getForwardPosition gs.agent).2 = true →
      mazeAt gs.maze (getForwardPosition gs.agent).1 (getForwardPosition gs.agent).2
        = TileType.WALL →
      executeCommand gs "forward" = (gs, some "Hit wall!")) ∧
    (isValidPosition gs (getForwardPosition gs.agent).1 (getForwardPosition gs.agent).2 = true →
      mazeAt gs.maze (getForwardPosition gs.agent).1 (getForwardPosition gs.agent).2
        ≠ TileType.WALL →
      executeCommand gs "forward" =
        ({ gs with agent := { gs.agent with
            row := (getForwardPosition gs.agent).1,
            col := (getForwardPosition gs.agent).2,
            totalSteps := gs.agent.totalSteps + 1 } }, none)) := by
  refine ⟨⟨by decide, by decide, by decide, by decide⟩, rfl, ?_, ?_, ?_⟩
  · intro h
    unfold executeCommand
    simp [h]
  · intro h1 h2
    unfold executeCommand
    simp [h1, h2]
  · intro h1 h2
    unfold executeCommand
    simp [h1, h2]

theorem forward_semantics_witness :
    executeCommand edgeState "forward" = (edgeState, some "Hit boundary!") ∧
    executeCommand northState "forward" = (northState, some "Hit wall!") ∧
    executeCommand miniState "forward" = (miniGoalState, none) := by
  refine ⟨(forward_semantics edgeState).2.2.1 (by decide),
    (forward_semantics northState).2.2.2.1 (by decide) (by decide),
    ((forward_semantics miniState).2.2.2.2 (by decide) (by decide)).trans (by decide)⟩

lemma executeCommand_posOk (gs : GameState) (c : String) (h : posOk gs) :
    posOk (executeCommand gs c).1 := by
  unfold executeCommand
  split <;> dsimp only
  case h_1 =>
    split_ifs with h1 h2
    · exact h
    · exact h
    · refine ⟨?_, h2⟩
      simpa using h1
  case h_2 => exact h
  case h_3 => exact h
  case h_4 => exact h

lemma execLoop_posOk :
    ∀ (cmds : List String) (gs : GameState), posOk gs → posOk (execLoop gs cmds).finalState := by
  intro cmds
  induction cmds with
  | nil =>
    intro gs h
    unfold execLoop
    split_ifs <;> exact h
  | cons c cs ih =>
    intro gs h
    unfold execLoop
    split_ifs with h1
    · exact h
    · split
      next gs' err heq =>
        have hp := executeCommand_posOk gs c h
        rw [heq] at hp
        exact hp
      next gs' heq =>
        have hp : posOk gs' := by
          have hp' := executeCommand_posOk gs c h
          rw [heq] at hp'
          exact hp'
        split_ifs with h2
        · exact hp
        · exact ih gs' hp

/-- Claim C7: the agent-position invariant (inside grid bounds and never
on a Wall cell) is preserved by every single command and, consequently,
by every full run of the command loop. -/
theorem position_invariant :
    (∀ (gs : GameState) (c : String), posOk gs → posOk (executeCommand gs c).1) ∧
    (∀ (gs : GameState) (cmds : List String), posOk gs →
      posOk (executeCommands gs cmds).finalState) := by
  refine ⟨executeCommand_posOk, ?_⟩
  intro gs cmds h
  exact execLoop_posOk cmds _ h

theorem position_invariant_witness :
    posOk miniState ∧ posOk (executeCommand miniState "forward").1 ∧
    posOk (executeCommands miniState ["forward"]).finalState := by
  refine ⟨by decide, position_invariant.1 miniState "forward" (by decide),
    position_invariant.2 miniState ["forward"] (by decide)⟩

/-- Claim C8: a `TurnLeft` stores direction (d+3) mod 4 (decrement by one
modulo four, stated also via `Fin 4` subtraction) and a `TurnRight`
stores (d+1) mod 4, both always succeeding; four consecutive turns of
either kind restore the original facing direction. -/
theorem turn_semantics (gs : GameState) :
    executeCommand gs "left" =
      ({ gs with agent := { gs.agent with
          direction := ⟨(gs.agent.direction.val + 3) % 4, by omega⟩ } }, none) ∧
    executeCommand gs "right" =
      ({ gs with agent := { gs.agent with
          direction := ⟨(gs.agent.direction.val + 1) % 4, by omega⟩ } }, none) ∧
    (executeCommand gs "left").1.agent.direction = gs.agent.direction - 1 ∧
    (executeCommand gs "right").1.agent.direction = gs.agent.direction + 1 ∧
    (executeCommand (executeCommand (executeCommand
      (executeCommand gs "left").1 "left").1 "left").1 "left").1.agent.direction =
      gs.agent.direction ∧
    (executeCommand (executeCommand (executeCommand
      (executeCommand gs "right").1 "right").1 "right").1 "right").1.agent.direction =
      gs.agent.direction := by
  refine ⟨rfl, rfl, ?_, ?_, ?_, ?_⟩ <;>
    (apply Fin.ext
     have hlt := gs.agent.direction.isLt
     simp [executeCommand, Fin.sub_def, Fin.add_def] <;> omega)

end MazeGame

namespace MazeGame

lemma infLE_refl (a : Option Nat) : infLE a a = true := by
  cases a <;> simp [infLE]

lemma infLE_total (a b : Option Nat) : infLE a b = true ∨ infLE b a = true := by
  cases a <;> cases b <;> simp [infLE] <;> omega

lemma infLE_trans {a b c : Option Nat} (h1 : infLE a b = true) (h2 : infLE b c = true) :
    infLE a c = true := by
  cases a <;> cases b <;> cases c <;> simp_all [infLE] <;> omega

lemma infLE_some_some {a b : Nat} (h : infLE (some a) (some b) = true) : a ≤ b := by
  simpa [infLE] using h

lemma infLT_none_right {t : Option Nat} (h : t.isSome) : infLT t none = true := by
  cases t <;> simp_all [infLT]

lemma infLT_some {a : Nat} {d : Option Nat} (h : infLT (some a) d = true) :
    d = none ∨ ∃ b, d = some b ∧ a < b := by
  cases d <;> simp_all [infLT]

lemma not_infLT_some {a : Nat} {d : Option Nat} (h : ¬ infLT (some a) d = true) :
    ∃ b, d = some b ∧ b ≤ a := by
  cases d <;> simp_all [infLT]

/-- Extending a path at the front. -/
lemma PathTo.head_step {w : SPos → Bool} {u v z : SPos} {n : Nat}
    (h : ValidStep w u v) (hp : PathTo w v z n) : PathTo w u z (n + 1) := by
  induction hp with
  | refl => exact PathTo.snoc (PathTo.refl u) h
  | snoc hp' hstep ih => exact PathTo.snoc ih hstep

lemma pathTo_of_stepsOk {w : SPos → Bool} :
    ∀ (l : List SPos) (u : SPos), stepsOk w u l = true →
      PathTo w u (l.getLastD u) l.length := by
  intro l
  induction l with
  | nil => intro u _; exact PathTo.refl u
  | cons v rest ih =>
    intro u h
    unfold stepsOk at h
    rw [Bool.and_eq_true, decide_eq_true_iff] at h
    have hrest := ih v h.2
    have hl : (v :: rest).getLastD u = rest.getLastD v := by
      cases rest <;> simp [List.getLastD]
    rw [hl]
    simpa [Nat.add_comm] using PathTo.head_step h.1 hrest

/-- A `PathTo` of length 0 connects a node to itself. -/
lemma PathTo.eq_of_zero {w : SPos → Bool} {a b : SPos} (h : PathTo w a b 0) : a = b := by
  cases h
  rfl

/-- Manhattan-distance consistency along one admissible step. -/
lemma calculateHeuristic_consistent {w : SPos → Bool} {u v : SPos}
    (h : ValidStep w u v) :
    calculateHeuristic u goalCell ≤ calculateHeuristic v goalCell + 1 := by
  obtain ⟨-, -, hadj⟩ := h
  unfold calculateHeuristic goalCell
  rcases hadj with ⟨h1, h2⟩ | ⟨h1, h2⟩ | ⟨h1, h2⟩ | ⟨h1, h2⟩ <;> rw [h1, h2] <;> omega

lemma heuristicOf_consistent (algo : AlgorithmType) {w : SPos → Bool} {u v : SPos}
    (h : ValidStep w u v) :
    heuristicOf algo u ≤ heuristicOf algo v + 1 := by
  unfold heuristicOf
  split_ifs
  · exact calculateHeuristic_consistent h
  · omega

/-- Heuristic bound along a path (telescoped consistency). -/
lemma heuristicOf_le_path (algo : AlgorithmType) {w : SPos → Bool} {y z : SPos} {m : Nat}
    (h : PathTo w y z m) :
    heuristicOf algo y ≤ m + heuristicOf algo z := by
  induction h with
  | refl => omega
  | snoc hp hstep ih =>
    have := heuristicOf_consistent algo (w := w) hstep
    omega

/-- Members of `getNeighbors` are exactly the admissible steps, provided
node states agree with the wall predicate. -/
lemma spos_eq {a b : SPos} (h1 : a.1 = b.1) (h2 : a.2 = b.2) : a = b := by
  obtain ⟨x, y⟩ := a
  obtain ⟨z, t⟩ := b
  simp_all

lemma mem_getNeighbors {w : SPos → Bool} {st : SearchState}
    (hw : ∀ p, st.nstate p = NodeState.wall ↔ w p = true) (u : SPos) (v : SPos) :
    v ∈ getNeighbors st u ↔ ValidStep w u v := by
  unfold getNeighbors ValidStep
  simp only [List.mem_filterMap, List.mem_cons, List.mem_singleton]
  constructor
  · rintro ⟨d, hd, hv⟩
    split_ifs at hv with hcond
    · obtain ⟨hb, hnw⟩ := hcond
      rw [Option.some_inj] at hv
      subst hv
      refine ⟨hb, ?_, ?_⟩
      · by_contra hwv
        simp only [Bool.not_eq_false] at hwv
        exact hnw ((hw _).mpr hwv)
      · have hd' : d = ((-1 : Int), (0 : Int)) ∨ d = (1, 0) ∨ d = (0, -1) ∨ d = (0, 1) := by
          simpa using hd
        rcases hd' with h | h | h | h <;> subst h <;> simp <;> omega
  · rintro ⟨hb, hnw, hadj⟩
    have hnsv : st.nstate v ≠ NodeState.wall := fun hcon => by
      rw [(hw v).mp hcon] at hnw
      simp at hnw
    rcases hadj with ⟨h1, h2⟩ | ⟨h1, h2⟩ | ⟨h1, h2⟩ | ⟨h1, h2⟩
    · refine ⟨(-1, 0), by simp, ?_⟩
      have he : ((u.1 + -1 : Int), (u.2 + 0 : Int)) = v :=
        spos_eq (by dsimp; omega) (by dsimp; omega)
      rw [he, if_pos ⟨hb, hnsv⟩]
    · refine ⟨(1, 0), by simp, ?_⟩
      have he : ((u.1 + 1 : Int), (u.2 + 0 : Int)) = v :=
        spos_eq (by dsimp; omega) (by dsimp; omega)
      rw [he, if_pos ⟨hb, hnsv⟩]
    · refine ⟨(0, -1), by simp, ?_⟩
      have he : ((u.1 + 0 : Int), (u.2 + -1 : Int)) = v :=
        spos_eq (by dsimp; omega) (by dsimp; omega)
      rw [he, if_pos ⟨hb, hnsv⟩]
    · refine ⟨(0, 1), by simp, ?_⟩
      have he : ((u.1 + 0 : Int), (u.2 + 1 : Int)) = v :=
        spos_eq (by dsimp; omega) (by dsimp; omega)
      rw [he, if_pos ⟨hb, hnsv⟩]

lemma getNeighbors_nodup (st : SearchState) (u : SPos) : (getNeighbors st u).Nodup := by
  unfold getNeighbors
  simp only [List.filterMap_cons, List.filterMap_nil]
  split_ifs <;> simp_all [List.nodup_cons, Prod.ext_iff] <;> omega

end MazeGame

namespace MazeGame

lemma insertionSort_head_min (k : SPos → Option Nat) (l : List SPos) (cur : SPos)
    (rest : List SPos)
    (h : List.insertionSort (fun a b => infLE (k a) (k b) = true) l = cur :: rest) :
    cur ∈ l ∧ (∀ z ∈ l, infLE (k cur) (k z) = true) ∧
    (∀ z, z ∈ rest → z ∈ l) ∧ (∀ z, z ∈ l → z = cur ∨ z ∈ rest) ∧
    (l.Nodup → rest.Nodup ∧ cur ∉ rest) := by
  haveI : IsTotal SPos (fun a b => infLE (k a) (k b) = true) := ⟨fun a b => infLE_total _ _⟩
  haveI : IsTrans SPos (fun a b => infLE (k a) (k b) = true) := ⟨fun a b c => infLE_trans⟩
  have hperm := List.perm_insertionSort (fun a b => infLE (k a) (k b) = true) l
  rw [h] at hperm
  have hsorted := List.sorted_insertionSort (fun a b => infLE (k a) (k b) = true) l
  rw [h] at hsorted
  refine ⟨hperm.subset (List.mem_cons_self cur rest), ?_, ?_, ?_, ?_⟩
  · intro z hz
    rcases List.mem_cons.mp ((hperm.mem_iff).mpr hz) with h' | h'
    · exact h' ▸ infLE_refl _
    · exact List.rel_of_sorted_cons hsorted z h'
  · intro z hz
    exact hperm.subset (List.mem_cons_of_mem cur hz)
  · intro z hz
    rcases List.mem_cons.mp ((hperm.mem_iff).mpr hz) with h' | h'
    · exact Or.inl h'
    · exact Or.inr h'
  · intro hnd
    have : (cur :: rest).Nodup := (hperm.nodup_iff).mpr hnd
    rw [List.nodup_cons] at this
    exact ⟨this.2, this.1⟩

lemma inBounds_mem_cellFinset {p : SPos} (h : inBounds p = true) : p ∈ cellFinset := by
  unfold inBounds at h
  unfold cellFinset GRID_SIZE at *
  simp only [Bool.and_eq_true, decide_eq_true_eq] at h
  simp only [Finset.mem_product, Finset.mem_Ico]
  omega

lemma cellFinset_card : cellFinset.card = GRID_SIZE * GRID_SIZE := by
  unfold cellFinset GRID_SIZE
  rw [Finset.card_product]
  simp [Int.card_Ico]

/-- Bound on any duplicate-free list of in-bounds cells. -/
lemma nodup_inBounds_length_le {l : List SPos} (hnd : l.Nodup)
    (hin : ∀ p ∈ l, inBounds p = true) : l.length ≤ GRID_SIZE * GRID_SIZE := by
  have hsub : l.toFinset ⊆ cellFinset := by
    intro p hp
    exact inBounds_mem_cellFinset (hin p (List.mem_toFinset.mp hp))
  have hcard := Finset.card_le_card hsub
  rw [List.toFinset_card_of_nodup hnd, cellFinset_card] at hcard
  exact hcard

end MazeGame

namespace MazeGame


lemma startCell_inBounds : inBounds startCell = true := by decide

lemma initial_SInv (w : SPos → Bool) (algo : AlgorithmType) (prev : AlgorithmStats)
    (hs : w startCell = false) (hg : w goalCell = false) :
    SInv w algo (initialSearchState w algo prev) := by
  constructor
  case wall_state =>
    intro p
    unfold initialSearchState
    dsimp only
    split_ifs with h1 h2 h3 <;> simp_all [startCell, goalCell] <;> decide
  case start_state =>
    intro p
    unfold initialSearchState
    dsimp only
    split_ifs with h1 h2 h3 <;> simp_all
  case goal_state =>
    intro p
    unfold initialSearchState
    dsimp only
    split_ifs with h1 h2 h3 <;> simp_all [startCell, goalCell] <;> decide
  case open_nodup => exact List.nodup_singleton _
  case closed_nodup => exact List.nodup_nil
  case open_closed_disj =>
    intro p _ h
    simp [initialSearchState] at h
  case open_ok =>
    intro p hp
    rw [show (initialSearchState w algo prev).openSet = [startCell] from rfl,
      List.mem_singleton] at hp
    subst hp
    exact ⟨startCell_inBounds, hs⟩
  case closed_ok =>
    intro p hp
    simp [initialSearchState] at hp
  case key_sync =>
    intro p hp
    rw [show (initialSearchState w algo prev).openSet = [startCell] from rfl,
      List.mem_singleton] at hp
    subst hp
    refine ⟨0, by simp [initialSearchState], ?_⟩
    unfold sortKey heuristicOf initialSearchState
    cases algo <;> simp [calculateHeuristic]
  case dist_start => simp [initialSearchState]
  case dist_real =>
    intro p d hd
    unfold initialSearchState at hd
    dsimp only at hd
    split_ifs at hd with h1
    · subst h1
      rw [Option.some_inj] at hd
      subst hd
      exact PathTo.refl _
  case dist_mem =>
    intro p d hd
    unfold initialSearchState at hd
    dsimp only at hd
    split_ifs at hd with h1
    · subst h1
      exact Or.inl (List.mem_singleton_self _)
  case start_mem => exact Or.inl (List.mem_singleton_self _)
  case goal_unclosed => simp [initialSearchState]
  case closed_min =>
    intro u hu
    simp [initialSearchState] at hu
  case closed_exp =>
    intro u hu
    simp [initialSearchState] at hu
  case par_chain =>
    intro p q h
    simp [initialSearchState] at h
  case par_some =>
    intro p d hd
    unfold initialSearchState at hd
    dsimp only at hd
    split_ifs at hd with h1
    · exact Or.inl h1

lemma relaxNeighbor_char (algo : AlgorithmType) (cur : SPos) (st : SearchState) (nb : SPos) :
    (relaxNeighbor algo cur st nb).closedSet = st.closedSet ∧
    (relaxNeighbor algo cur st nb).nstate = st.nstate ∧
    (relaxNeighbor algo cur st nb).nodesExplored = st.nodesExplored ∧
    (relaxNeighbor algo cur st nb).stats = st.stats ∧
    (∀ p, p ≠ nb → (relaxNeighbor algo cur st nb).distance p = st.distance p ∧
        (relaxNeighbor algo cur st nb).parent p = st.parent p ∧
        (relaxNeighbor algo cur st nb).fScore p = st.fScore p ∧
        (p ∈ (relaxNeighbor algo cur st nb).openSet ↔ p ∈ st.openSet)) ∧
    (∀ p, p ∈ st.openSet → p ∈ (relaxNeighbor algo cur st nb).openSet) ∧
    (∀ p, p ∈ (relaxNeighbor algo cur st nb).openSet → p ∈ st.openSet ∨ p = nb) ∧
    (st.openSet.Nodup → (relaxNeighbor algo cur st nb).openSet.Nodup) ∧
    (nb ∈ st.closedSet →
        (relaxNeighbor algo cur st nb) = st) ∧
    (nb ∉ st.closedSet → infLT (optAdd1 (st.distance cur)) (st.distance nb) = true →
        (relaxNeighbor algo cur st nb).distance nb = optAdd1 (st.distance cur) ∧
        (relaxNeighbor algo cur st nb).parent nb = some cur ∧
        nb ∈ (relaxNeighbor algo cur st nb).openSet ∧
        (algo = AlgorithmType.astar →
          (relaxNeighbor algo cur st nb).fScore nb =
            (optAdd1 (st.distance cur)).map (· + calculateHeuristic nb goalCell)) ∧
        (algo ≠ AlgorithmType.astar →
          (relaxNeighbor algo cur st nb).fScore nb = st.fScore nb)) ∧
    (nb ∉ st.closedSet → ¬ infLT (optAdd1 (st.distance cur)) (st.distance nb) = true →
        (relaxNeighbor algo cur st nb) = st) := by
  unfold relaxNeighbor
  split_ifs with hcl hlt
  · refine ⟨rfl, rfl, rfl, rfl, ?_, ?_, ?_, ?_, ?_, ?_, ?_⟩ <;> simp_all
  · cases algo <;> dsimp only <;> split_ifs with hopen <;>
      refine ⟨rfl, rfl, rfl, rfl, ?_, ?_, ?_, ?_, ?_, ?_, ?_⟩ <;>
      simp_all [List.nodup_append] <;> intro p <;> aesop

lemma relaxFold_char (algo : AlgorithmType) (cur : SPos) :
    ∀ (l : List SPos) (st st' : SearchState), st' = l.foldl (relaxNeighbor algo cur) st →
      l.Nodup → cur ∉ l →
      (st'.closedSet = st.closedSet ∧
       st'.nstate = st.nstate ∧
       st'.nodesExplored = st.nodesExplored ∧
       st'.stats = st.stats ∧
       st'.distance cur = st.distance cur ∧
       (∀ p, p ∉ l → st'.distance p = st.distance p ∧ st'.parent p = st.parent p ∧
           st'.fScore p = st.fScore p ∧ (p ∈ st'.openSet ↔ p ∈ st.openSet)) ∧
       (∀ p, p ∈ st.openSet → p ∈ st'.openSet) ∧
       (∀ p, p ∈ st'.openSet → p ∈ st.openSet ∨ p ∈ l) ∧
       (st.openSet.Nodup → st'.openSet.Nodup) ∧
       (∀ p ∈ l,
         (p ∈ st.closedSet → st'.distance p = st.distance p ∧ st'.parent p = st.parent p ∧
             st'.fScore p = st.fScore p ∧ (p ∈ st'.openSet ↔ p ∈ st.openSet)) ∧
         (p ∉ st.closedSet → infLT (optAdd1 (st.distance cur)) (st.distance p) = true →
             st'.distance p = optAdd1 (st.distance cur) ∧ st'.parent p = some cur ∧
             p ∈ st'.openSet ∧
             (algo = AlgorithmType.astar →
               st'.fScore p =
                 (optAdd1 (st.distance cur)).map (· + calculateHeuristic p goalCell)) ∧
             (algo ≠ AlgorithmType.astar → st'.fScore p = st.fScore p)) ∧
         (p ∉ st.closedSet → ¬ infLT (optAdd1 (st.distance cur)) (st.distance p) = true →
             st'.distance p = st.distance p ∧ st'.parent p = st.parent p ∧
             st'.fScore p = st.fScore p ∧ (p ∈ st'.openSet ↔ p ∈ st.openSet)))) := by
  intro l
  induction l with
  | nil =>
    intro st st' he _ _
    subst he
    refine ⟨rfl, rfl, rfl, rfl, rfl, ?_, ?_, ?_, ?_, ?_⟩ <;> simp
  | cons a l ih =>
    intro st st' he hnd hcur
    rw [List.foldl_cons] at he
    have hcra : cur ≠ a := fun hc => hcur (hc ▸ List.mem_cons_self a l)
    have hcrl : cur ∉ l := fun hc => hcur (List.mem_cons_of_mem a hc)
    have hal : a ∉ l := (List.nodup_cons.mp hnd).1
    obtain ⟨hb1, hb2, hb3, hb4, hb5, hb6, hb7, hb8, hb9, hb10, hb11⟩ :=
      relaxNeighbor_char algo cur st a
    obtain ⟨ih1, ih2, ih3, ih4, ih5, ih6, ih7, ih8, ih9, ih10⟩ :=
      ih (relaxNeighbor algo cur st a) st' he (List.nodup_cons.mp hnd).2 hcrl
    have hdc : st'.distance cur = st.distance cur := by
      rw [ih5, (hb5 cur hcra).1]
    refine ⟨ih1.trans hb1, ih2.trans hb2, ih3.trans hb3, ih4.trans hb4, hdc, ?_, ?_, ?_, ?_, ?_⟩
    · intro p hp
      have hpa : p ≠ a := fun hc => hp (hc ▸ List.mem_cons_self a l)
      have hpl : p ∉ l := fun hc => hp (List.mem_cons_of_mem a hc)
      obtain ⟨i1, i2, i3, i4⟩ := ih6 p hpl
      obtain ⟨b1, b2, b3, b4⟩ := hb5 p hpa
      exact ⟨i1.trans b1, i2.trans b2, i3.trans b3, i4.trans b4⟩
    · intro p hp
      exact ih7 p (hb6 p hp)
    · intro p hp
      rcases ih8 p hp with h' | h'
      · rcases hb7 p h' with h'' | h''
        · exact Or.inl h''
        · exact Or.inr (h'' ▸ List.mem_cons_self a l)
      · exact Or.inr (List.mem_cons_of_mem a h')
    · intro hnd'
      exact ih9 (hb8 hnd')
    · intro p hp
      rcases List.mem_cons.mp hp with hpa | hpl
      · subst hpa
        obtain ⟨i1, i2, i3, i4⟩ := ih6 p hal
        refine ⟨?_, ?_, ?_⟩
        · intro hclp
          have hst := hb9 hclp
          rw [hst] at i1 i2 i3 i4
          exact ⟨i1, i2, i3, i4⟩
        · intro hclp hlt
          obtain ⟨b1, b2, b3, b4, b5⟩ := hb10 hclp hlt
          refine ⟨i1.trans b1, i2.trans b2, i4.mpr b3, ?_, ?_⟩
          · intro ha
            exact (i3.trans (b4 ha))
          · intro ha
            exact (i3.trans (b5 ha))
        · intro hclp hlt
          have hst := hb11 hclp hlt
          rw [hst] at i1 i2 i3 i4
          exact ⟨i1, i2, i3, i4⟩
      · have hpa : p ≠ a := fun hc => hal (hc ▸ hpl)
        obtain ⟨b1, b2, b3, b4⟩ := hb5 p hpa
        obtain ⟨j1, j2, j3⟩ := ih10 p hpl
        have hcl_eq : (p ∈ (relaxNeighbor algo cur st a).closedSet) ↔ p ∈ st.closedSet := by
          rw [hb1]
        have hda : (relaxNeighbor algo cur st a).distance cur = st.distance cur :=
          (hb5 cur hcra).1
        refine ⟨?_, ?_, ?_⟩
        · intro hclp
          obtain ⟨k1, k2, k3, k4⟩ := j1 (hcl_eq.mpr hclp)
          rw [b1] at k1
          rw [b2] at k2
          rw [b3] at k3
          exact ⟨k1, k2, k3, k4.trans b4⟩
        · intro hclp hlt
          have hlt' : infLT (optAdd1 ((relaxNeighbor algo cur st a).distance cur))
              ((relaxNeighbor algo cur st a).distance p) = true := by
            rw [hda, b1]
            exact hlt
          obtain ⟨k1, k2, k3, k4, k5⟩ := j2 (fun hc => hclp (hcl_eq.mp hc)) hlt'
          rw [hda] at k1
          refine ⟨k1, k2, k3, ?_, ?_⟩
          · intro ha
            rw [hda] at k4
            exact k4 ha
          · intro ha
            exact (k5 ha).trans b3
        · intro hclp hlt
          have hlt' : ¬ infLT (optAdd1 ((relaxNeighbor algo cur st a).distance cur))
              ((relaxNeighbor algo cur st a).distance p) = true := by
            rw [hda, b1]
            exact hlt
          obtain ⟨k1, k2, k3, k4⟩ := j3 (fun hc => hclp (hcl_eq.mp hc)) hlt'
          rw [b1] at k1
          rw [b2] at k2
          rw [b3] at k3
          exact ⟨k1, k2, k3, k4.trans b4⟩

/-- The frontier property: any walk to an unclosed node passes through an
open node whose recorded distance plus the remaining walk length does not
exceed the walk's length. -/
lemma frontier {w : SPos → Bool} {algo : AlgorithmType} {st : SearchState}
    (hInv : SInv w algo st) :
    ∀ {z : SPos} {k : Nat}, PathTo w startCell z k → z ∉ st.closedSet →
      ∃ y dy m, y ∈ st.openSet ∧ st.distance y = some dy ∧ PathTo w y z m ∧ dy + m ≤ k := by
  intro z k hp
  induction hp with
  | refl =>
    intro hz
    rcases hInv.start_mem with h | h
    · exact ⟨startCell, 0, 0, h, hInv.dist_start, PathTo.refl _, by omega⟩
    · exact absurd h hz
  | snoc hp hstep ih =>
    rename_i v x n
    intro hx
    by_cases hv : v ∈ st.closedSet
    · obtain ⟨hmem, dv, dx, hdv, hdx, hle⟩ := hInv.closed_exp v hv x hstep
      obtain ⟨dv', hdv', hmin⟩ := hInv.closed_min v hv
      rw [hdv] at hdv'
      rw [Option.some_inj] at hdv'
      subst hdv'
      have hvn : dv ≤ n := hmin n hp
      have hxopen : x ∈ st.openSet := by
        rcases hmem with h | h
        · exact absurd h hx
        · exact h
      exact ⟨x, dx, 0, hxopen, hdx, PathTo.refl _, by omega⟩
    · obtain ⟨y, dy, m, hy, hdy, hpm, hle⟩ := ih hv
      exact ⟨y, dy, m + 1, hy, hdy, PathTo.snoc hpm hstep, by omega⟩

/-- Pop optimality: the head of the sorted open set carries an exact
shortest-path distance (the A* argument with a consistent heuristic; the
Dijkstra case is the zero heuristic). -/
lemma pop_shortest {w : SPos → Bool} {algo : AlgorithmType} {st : SearchState}
    {cur : SPos} {rest : List SPos} (hInv : SInv w algo st)
    (hsort : List.insertionSort
        (fun a b => infLE (sortKey algo st a) (sortKey algo st b) = true) st.openSet
      = cur :: rest) :
    ∃ dc, st.distance cur = some dc ∧ PathTo w startCell cur dc ∧
      ∀ m, PathTo w startCell cur m → dc ≤ m := by
  obtain ⟨hcur_mem, hmin, hrest_mem, hsplit, hnd⟩ :=
    insertionSort_head_min (sortKey algo st) st.openSet cur rest hsort
  obtain ⟨dc, hdc, hkc⟩ := hInv.key_sync cur hcur_mem
  refine ⟨dc, hdc, hInv.dist_real cur dc hdc, ?_⟩
  intro m hm
  have hcur_ncl := hInv.open_closed_disj cur hcur_mem
  obtain ⟨y, dy, mm, hy, hdy, hpm, hle⟩ := frontier hInv hm hcur_ncl
  obtain ⟨dy', hdy', hky⟩ := hInv.key_sync y hy
  rw [hdy] at hdy'
  rw [Option.some_inj] at hdy'
  subst hdy'
  have hkey := hmin y hy
  rw [hkc, hky] at hkey
  have h1 := infLE_some_some hkey
  have h2 := heuristicOf_le_path algo (w := w) hpm
  omega

/-- An admissible step never returns to its source. -/
lemma ValidStep.ne {w : SPos → Bool} {u v : SPos} (h : ValidStep w u v) : v ≠ u := by
  obtain ⟨-, -, hadj⟩ := h
  intro hc
  subst hc
  rcases hadj with ⟨h1, -⟩ | ⟨h1, -⟩ | ⟨-, h2⟩ | ⟨-, h2⟩ <;> omega




/-- `searchLoop` unfolded through the helper names. -/
lemma searchLoop_succ (algo : AlgorithmType) (fuel : Nat) (st : SearchState) :
    searchLoop algo (fuel + 1) st =
      (match List.insertionSort
          (fun a b => infLE (sortKey algo st a) (sortKey algo st b) = true) st.openSet with
      | [] => LoopResult.exhausted st
      | current :: rest =>
        if current = goalCell then LoopResult.found (popState st current rest)
        else searchLoop algo fuel (iterStep algo st current rest)) := by
  rfl

lemma markState_fields (st : SearchState) (c : SPos) (ns : NodeState) :
    (markState st c ns).distance = st.distance ∧
    (markState st c ns).parent = st.parent ∧
    (markState st c ns).fScore = st.fScore ∧
    (markState st c ns).heuristic = st.heuristic ∧
    (markState st c ns).openSet = st.openSet ∧
    (markState st c ns).closedSet = st.closedSet ∧
    (markState st c ns).nodesExplored = st.nodesExplored ∧
    (markState st c ns).stats = st.stats := by
  unfold markState
  split_ifs <;> exact ⟨rfl, rfl, rfl, rfl, rfl, rfl, rfl, rfl⟩

lemma markState_nstate (st : SearchState) (c : SPos) (ns : NodeState) (p : SPos) :
    (markState st c ns).nstate p =
      if p = c ∧ st.nstate c ≠ NodeState.start ∧ st.nstate c ≠ NodeState.goal then ns
      else st.nstate p := by
  unfold markState
  split_ifs with h1 h2 h3 <;> simp_all

set_option maxHeartbeats 1000000 in
lemma iterStep_SInv {w : SPos → Bool} {algo : AlgorithmType} {st : SearchState}
    {cur : SPos} {rest : List SPos} (hInv : SInv w algo st)
    (hsort : List.insertionSort
        (fun a b => infLE (sortKey algo st a) (sortKey algo st b) = true) st.openSet
      = cur :: rest)
    (hng : cur ≠ goalCell) :
    SInv w algo (iterStep algo st cur rest) ∧
    (iterStep algo st cur rest).closedSet = cur :: st.closedSet ∧
    (iterStep algo st cur rest).stats.pathLength = st.stats.pathLength ∧
    (iterStep algo st cur rest).stats.optimalPath = st.stats.optimalPath ∧
    (iterStep algo st cur rest).stats.efficiency = st.stats.efficiency := by
  obtain ⟨hcm, hmin, hrm, hsplit, hndf⟩ := insertionSort_head_min _ _ _ _ hsort
  obtain ⟨hrest_nd, hcr⟩ := hndf hInv.open_nodup
  have hncl : cur ∉ st.closedSet := hInv.open_closed_disj cur hcm
  obtain ⟨dc, hdc, hreal, hminp⟩ := pop_shortest hInv hsort
  have hwcur : w cur = false := (hInv.open_ok cur hcm).2
  have hbcur : inBounds cur = true := (hInv.open_ok cur hcm).1
  set st1 := popState st cur rest with hst1
  set st2 := markState st1 cur NodeState.exploring with hst2
  set st3 := { st2 with nodesExplored := st2.nodesExplored + 1 } with hst3
  set st4 := { st3 with stats := { st3.stats with nodesExplored := st3.nodesExplored } } with hst4
  set l := getNeighbors st4 cur with hl
  set st5 := l.foldl (relaxNeighbor algo cur) st4 with hst5
  set st6 := markState st5 cur NodeState.explored with hst6
  have hiter : iterStep algo st cur rest = st6 := rfl
  have hmk2 := markState_fields st1 cur NodeState.exploring
  have hd4 : st4.distance = st.distance := hmk2.1
  have hp4 : st4.parent = st.parent := hmk2.2.1
  have hf4 : st4.fScore = st.fScore := hmk2.2.2.1
  have ho4 : st4.openSet = rest := hmk2.2.2.2.2.1
  have hc4 : st4.closedSet = cur :: st.closedSet := by
    have h := hmk2.2.2.2.2.2.1
    rw [hst4, hst3]
    show st2.closedSet = _
    rw [h]
    show (if cur ∈ st.closedSet then st.closedSet else cur :: st.closedSet) = _
    rw [if_neg hncl]
  have hn4 : ∀ p, st4.nstate p =
      if p = cur ∧ st.nstate cur ≠ NodeState.start ∧ st.nstate cur ≠ NodeState.goal
      then NodeState.exploring else st.nstate p := by
    intro p
    rw [hst4, hst3]
    show st2.nstate p = _
    rw [hst2, markState_nstate]
    rfl
  have hw4 : ∀ p, st4.nstate p = NodeState.wall ↔ w p = true := by
    intro p
    rw [hn4 p]
    split_ifs with h
    · rw [h.1]
      simp [hwcur]
    · exact hInv.wall_state p
  have hlv : ∀ v, v ∈ l ↔ ValidStep w cur v := fun v => mem_getNeighbors hw4 cur v
  have hlnd : l.Nodup := getNeighbors_nodup st4 cur
  have hcurl : cur ∉ l := fun hc => (ValidStep.ne ((hlv cur).mp hc)) rfl
  obtain ⟨F1, F2, F3, F4, F5, F6, F7, F8, F9, F10⟩ :=
    relaxFold_char algo cur l st4 st5 hst5 hlnd hcurl
  have hmk6 := markState_fields st5 cur NodeState.explored
  have hd6 : st6.distance = st5.distance := hmk6.1
  have hp6 : st6.parent = st5.parent := hmk6.2.1
  have hf6 : st6.fScore = st5.fScore := hmk6.2.2.1
  have ho6 : st6.openSet = st5.openSet := hmk6.2.2.2.2.1
  have hc6 : st6.closedSet = cur :: st.closedSet := by
    rw [hmk6.2.2.2.2.2.1, F1, hc4]
  have hdc5 : st5.distance cur = some dc := by
    rw [F5, hd4]
    exact hdc
  have hn6 : ∀ p, st6.nstate p =
      if p = cur ∧ st.nstate cur ≠ NodeState.start ∧ st.nstate cur ≠ NodeState.goal
      then NodeState.explored else st.nstate p := by
    intro p
    rw [hst6, markState_nstate]
    rw [show st5.nstate = st4.nstate from F2]
    rw [hn4 cur, hn4 p]
    by_cases hG : st.nstate cur ≠ NodeState.start ∧ st.nstate cur ≠ NodeState.goal
    · by_cases hpc : p = cur <;> simp [hpc, hG]
    · by_cases hpc : p = cur <;> simp [hpc, hG]
  have trich : ∀ p ∈ l,
      (p ∈ st.closedSet → st6.distance p = st.distance p ∧ st6.parent p = st.parent p ∧
          st6.fScore p = st.fScore p ∧ (p ∈ st6.openSet ↔ p ∈ rest)) ∧
      (p ∉ st.closedSet → infLT (some (dc + 1)) (st.distance p) = true →
          st6.distance p = some (dc + 1) ∧ st6.parent p = some cur ∧ p ∈ st6.openSet ∧
          (algo = AlgorithmType.astar →
            st6.fScore p = some (dc + 1 + calculateHeuristic p goalCell)) ∧
          (algo ≠ AlgorithmType.astar → st6.fScore p = st.fScore p)) ∧
      (p ∉ st.closedSet → ¬ infLT (some (dc + 1)) (st.distance p) = true →
          st6.distance p = st.distance p ∧ st6.parent p = st.parent p ∧
          st6.fScore p = st.fScore p ∧ (p ∈ st6.openSet ↔ p ∈ rest)) := by
    intro p hp
    have hpc : p ≠ cur := fun hc => hcurl (hc ▸ hp)
    obtain ⟨T1, T2, T3⟩ := F10 p hp
    have hcl4 : (p ∈ st4.closedSet) ↔ p ∈ st.closedSet := by
      rw [hc4, List.mem_cons]
      exact ⟨fun h => h.resolve_left hpc, Or.inr⟩
    have hlt4 : infLT (optAdd1 (st4.distance cur)) (st4.distance p)
        = infLT (some (dc + 1)) (st.distance p) := by
      rw [hd4, hdc]
      rfl
    refine ⟨?_, ?_, ?_⟩
    · intro hclp
      obtain ⟨k1, k2, k3, k4⟩ := T1 (hcl4.mpr hclp)
      rw [hd4] at k1
      rw [hp4] at k2
      rw [hf4] at k3
      rw [ho4] at k4
      exact ⟨hd6 ▸ k1, hp6 ▸ k2, hf6 ▸ k3, ho6 ▸ k4⟩
    · intro hclp hlt
      obtain ⟨k1, k2, k3, k4, k5⟩ := T2 (fun hc => hclp (hcl4.mp hc)) (by rw [hlt4]; exact hlt)
      rw [hd4, hdc] at k1
      refine ⟨hd6 ▸ k1, hp6 ▸ k2, ho6 ▸ k3, ?_, ?_⟩
      · intro ha
        have hk := k4 ha
        rw [hd4, hdc] at hk
        rw [hf6, hk]
        rfl
      · intro ha
        have hk := k5 ha
        rw [hf4] at hk
        exact hf6 ▸ hk
    · intro hclp hlt
      obtain ⟨k1, k2, k3, k4⟩ := T3 (fun hc => hclp (hcl4.mp hc)) (by rw [hlt4]; exact hlt)
      rw [hd4] at k1
      rw [hp4] at k2
      rw [hf4] at k3
      rw [ho4] at k4
      exact ⟨hd6 ▸ k1, hp6 ▸ k2, hf6 ▸ k3, ho6 ▸ k4⟩
  have untouched : ∀ p, p ∉ l →
      st6.distance p = st.distance p ∧ st6.parent p = st.parent p ∧
      st6.fScore p = st.fScore p ∧ (p ∈ st6.openSet ↔ p ∈ rest) := by
    intro p hp
    obtain ⟨k1, k2, k3, k4⟩ := F6 p hp
    rw [hd4] at k1
    rw [hp4] at k2
    rw [hf4] at k3
    rw [ho4] at k4
    exact ⟨hd6 ▸ k1, hp6 ▸ k2, hf6 ▸ k3, ho6 ▸ k4⟩
  have hopen_mono : ∀ p, p ∈ rest → p ∈ st6.openSet := by
    intro p hp
    rw [ho6]
    exact F7 p (by rw [ho4]; exact hp)
  have hopen_sub : ∀ p, p ∈ st6.openSet → p ∈ rest ∨ p ∈ l := by
    intro p hp
    rw [ho6] at hp
    rcases F8 p hp with h | h
    · exact Or.inl (by rw [← ho4]; exact h)
    · exact Or.inr h
  have hdist_cur6 : st6.distance cur = some dc := hd6 ▸ hdc5
  have hclosed_dist : ∀ u, u ∈ st.closedSet → st6.distance u = st.distance u := by
    intro u hcl
    by_cases hul : u ∈ l
    · exact ((trich u hul).1 hcl).1
    · exact (untouched u hul).1
  have hdist_le : ∀ p dvp, st.distance p = some dvp →
      ∃ d', st6.distance p = some d' ∧ d' ≤ dvp := by
    intro p dvp hd
    by_cases hpl : p ∈ l
    · by_cases hclp : p ∈ st.closedSet
      · exact ⟨dvp, ((trich p hpl).1 hclp).1 ▸ hd, le_refl _⟩
      · by_cases hlt : infLT (some (dc + 1)) (st.distance p) = true
        · have k := (trich p hpl).2.1 hclp hlt
          refine ⟨dc + 1, k.1, ?_⟩
          rw [hd] at hlt
          have hx := infLT_some hlt
          simp at hx
          omega
        · exact ⟨dvp, ((trich p hpl).2.2 hclp hlt).1 ▸ hd, le_refl _⟩
    · exact ⟨dvp, (untouched p hpl).1 ▸ hd, le_refl _⟩
  rw [hiter]
  refine ⟨?_, hc6, ?_, ?_, ?_⟩
  case refine_2 =>
    have h6 : st6.stats = st5.stats := hmk6.2.2.2.2.2.2.2
    have h2 : st2.stats = st.stats := hmk2.2.2.2.2.2.2.2
    rw [h6, F4]
    show st2.stats.pathLength = st.stats.pathLength
    rw [h2]
  case refine_3 =>
    have h6 : st6.stats = st5.stats := hmk6.2.2.2.2.2.2.2
    have h2 : st2.stats = st.stats := hmk2.2.2.2.2.2.2.2
    rw [h6, F4]
    show st2.stats.optimalPath = st.stats.optimalPath
    rw [h2]
  case refine_4 =>
    have h6 : st6.stats = st5.stats := hmk6.2.2.2.2.2.2.2
    have h2 : st2.stats = st.stats := hmk2.2.2.2.2.2.2.2
    rw [h6, F4]
    show st2.stats.efficiency = st.stats.efficiency
    rw [h2]
  constructor
  case wall_state =>
    intro p
    rw [hn6 p]
    split_ifs with h
    · rw [h.1]
      simp [hwcur]
    · exact hInv.wall_state p
  case start_state =>
    intro p
    rw [hn6 p]
    split_ifs with h
    · have hps : p ≠ startCell := by
        intro hc
        exact h.2.1 ((hInv.start_state cur).mpr (by rw [← h.1, hc]))
      simp [hps]
    · exact hInv.start_state p
  case goal_state =>
    intro p
    rw [hn6 p]
    split_ifs with h
    · have hpg : p ≠ goalCell := by
        intro hc
        exact h.2.2 ((hInv.goal_state cur).mpr (by rw [← h.1, hc]))
      simp [hpg]
    · exact hInv.goal_state p
  case open_nodup =>
    rw [ho6]
    refine F9 ?_
    rw [ho4]
    exact hrest_nd
  case closed_nodup =>
    rw [hc6]
    exact List.nodup_cons.mpr ⟨hncl, hInv.closed_nodup⟩
  case open_closed_disj =>
    intro p hp hcl
    rw [hc6, List.mem_cons] at hcl
    rcases hcl with hcl | hcl
    · subst hcl
      rcases hopen_sub p hp with h | h
      · exact hcr h
      · exact hcurl h
    · rcases hopen_sub p hp with h | h
      · exact hInv.open_closed_disj p (hrm p h) hcl
      · exact hInv.open_closed_disj p (hrm p (((trich p h).1 hcl).2.2.2.mp hp)) hcl
  case open_ok =>
    intro p hp
    rcases hopen_sub p hp with h | h
    · exact hInv.open_ok p (hrm p h)
    · have hstep := (hlv p).mp h
      exact ⟨hstep.1, hstep.2.1⟩
  case closed_ok =>
    intro p hp
    rw [hc6, List.mem_cons] at hp
    rcases hp with hp | hp
    · subst hp
      exact ⟨hbcur, hwcur⟩
    · exact hInv.closed_ok p hp
  case key_sync =>
    intro p hp
    by_cases hpl : p ∈ l
    · obtain ⟨T1, T2, T3⟩ := trich p hpl
      by_cases hclp : p ∈ st.closedSet
      · exact absurd hclp (hInv.open_closed_disj p (hrm p ((T1 hclp).2.2.2.mp hp)))
      · by_cases hlt : infLT (some (dc + 1)) (st.distance p) = true
        · obtain ⟨k1, k2, k3, k4, k5⟩ := T2 hclp hlt
          refine ⟨dc + 1, k1, ?_⟩
          unfold sortKey heuristicOf
          cases algo with
          | astar => simp [k4 rfl]
          | dijkstra => simp [k1]
          | bfs => simp [k1]
          | dfs => simp [k1]
        · obtain ⟨k1, k2, k3, k4⟩ := T3 hclp hlt
          obtain ⟨d, hd, hk⟩ := hInv.key_sync p (hrm p (k4.mp hp))
          refine ⟨d, k1 ▸ hd, ?_⟩
          unfold sortKey at hk ⊢
          cases algo <;> simp_all
    · obtain ⟨k1, k2, k3, k4⟩ := untouched p hpl
      obtain ⟨d, hd, hk⟩ := hInv.key_sync p (hrm p (k4.mp hp))
      refine ⟨d, k1 ▸ hd, ?_⟩
      unfold sortKey at hk ⊢
      cases algo <;> simp_all
  case dist_start =>
    have h0 := hInv.dist_start
    by_cases hpl : startCell ∈ l
    · obtain ⟨T1, T2, T3⟩ := trich startCell hpl
      by_cases hclp : startCell ∈ st.closedSet
      · exact (T1 hclp).1 ▸ h0
      · have hlt : ¬ infLT (some (dc + 1)) (st.distance startCell) = true := by
          rw [h0]
          simp [infLT]
        exact (T3 hclp hlt).1 ▸ h0
    · exact (untouched startCell hpl).1 ▸ h0
  case dist_real =>
    intro p d hd
    by_cases hpl : p ∈ l
    · obtain ⟨T1, T2, T3⟩ := trich p hpl
      by_cases hclp : p ∈ st.closedSet
      · exact hInv.dist_real p d ((T1 hclp).1 ▸ hd)
      · by_cases hlt : infLT (some (dc + 1)) (st.distance p) = true
        · obtain ⟨k1, k2, k3, k4, k5⟩ := T2 hclp hlt
          rw [k1] at hd
          rw [Option.some_inj] at hd
          subst hd
          exact PathTo.snoc hreal ((hlv p).mp hpl)
        · exact hInv.dist_real p d (((T3 hclp hlt).1) ▸ hd)
    · exact hInv.dist_real p d ((untouched p hpl).1 ▸ hd)
  case dist_mem =>
    intro p d hd
    by_cases hpl : p ∈ l
    · obtain ⟨T1, T2, T3⟩ := trich p hpl
      by_cases hclp : p ∈ st.closedSet
      · right
        rw [hc6]
        exact List.mem_cons_of_mem cur hclp
      · by_cases hlt : infLT (some (dc + 1)) (st.distance p) = true
        · exact Or.inl ((T2 hclp hlt).2.2.1)
        · obtain ⟨k1, k2, k3, k4⟩ := T3 hclp hlt
          rcases hInv.dist_mem p d (k1 ▸ hd) with h | h
          · rcases hsplit p h with h' | h'
            · exact absurd (h' ▸ hpl) hcurl
            · exact Or.inl (k4.mpr h')
          · exact absurd h hclp
    · obtain ⟨k1, k2, k3, k4⟩ := untouched p hpl
      rcases hInv.dist_mem p d (k1 ▸ hd) with h | h
      · rcases hsplit p h with h' | h'
        · right
          rw [hc6, h']
          exact List.mem_cons_self cur _
        · exact Or.inl (k4.mpr h')
      · right
        rw [hc6]
        exact List.mem_cons_of_mem cur h
  case start_mem =>
    rcases hInv.start_mem with h | h
    · rcases hsplit startCell h with h' | h'
      · right
        rw [hc6, h']
        exact List.mem_cons_self cur _
      · exact Or.inl (hopen_mono startCell h')
    · right
      rw [hc6]
      exact List.mem_cons_of_mem cur h
  case goal_unclosed =>
    rw [hc6, List.mem_cons]
    rintro (h | h)
    · exact hng h.symm
    · exact hInv.goal_unclosed h
  case closed_min =>
    intro u hu
    rw [hc6, List.mem_cons] at hu
    rcases hu with hu | hu
    · subst hu
      exact ⟨dc, hdist_cur6, hminp⟩
    · obtain ⟨du, hdu, hmin'⟩ := hInv.closed_min u hu
      exact ⟨du, (hclosed_dist u hu) ▸ hdu, hmin'⟩
  case closed_exp =>
    intro u hu v hstep
    rw [hc6, List.mem_cons] at hu
    rcases hu with hu | hu
    · subst hu
      have hvl : v ∈ l := (hlv v).mpr hstep
      obtain ⟨T1, T2, T3⟩ := trich v hvl
      by_cases hvcl : v ∈ st.closedSet
      · obtain ⟨dv, hdv, hminv⟩ := hInv.closed_min v hvcl
        refine ⟨Or.inl (by rw [hc6]; exact List.mem_cons_of_mem u hvcl), dc, dv,
          hdist_cur6, (T1 hvcl).1 ▸ hdv, hminv (dc + 1) (PathTo.snoc hreal hstep)⟩
      · by_cases hlt : infLT (some (dc + 1)) (st.distance v) = true
        · obtain ⟨k1, k2, k3, k4, k5⟩ := T2 hvcl hlt
          exact ⟨Or.inr k3, dc, dc + 1, hdist_cur6, k1, le_refl _⟩
        · obtain ⟨k1, k2, k3, k4⟩ := T3 hvcl hlt
          obtain ⟨dv, hdv, hledv⟩ := not_infLT_some hlt
          refine ⟨?_, dc, dv, hdist_cur6, k1 ▸ hdv, hledv⟩
          rcases hInv.dist_mem v dv hdv with h | h
          · rcases hsplit v h with h' | h'
            · exact absurd h' (ValidStep.ne hstep)
            · exact Or.inr (hopen_mono v h')
          · exact absurd h hvcl
    · obtain ⟨hmem, du, dv, hdu, hdv, hle⟩ := hInv.closed_exp u hu v hstep
      obtain ⟨dv', hdv', hle'⟩ := hdist_le v dv hdv
      refine ⟨?_, du, dv', (hclosed_dist u hu) ▸ hdu, hdv', by omega⟩
      rcases hmem with h | h
      · exact Or.inl (by rw [hc6]; exact List.mem_cons_of_mem cur h)
      · rcases hsplit v h with h' | h'
        · exact Or.inl (by rw [hc6, h']; exact List.mem_cons_self cur _)
        · exact Or.inr (hopen_mono v h')
  case par_chain =>
    intro p q hpq
    by_cases hpl : p ∈ l
    · obtain ⟨T1, T2, T3⟩ := trich p hpl
      by_cases hclp : p ∈ st.closedSet
      · obtain ⟨k1, k2, k3, k4⟩ := T1 hclp
        obtain ⟨hvs, hqcl, dp, dq, hdp, hdq, he⟩ := hInv.par_chain p q (k2 ▸ hpq)
        exact ⟨hvs, by rw [hc6]; exact List.mem_cons_of_mem cur hqcl,
          dp, dq, k1 ▸ hdp, (hclosed_dist q hqcl) ▸ hdq, he⟩
      · by_cases hlt : infLT (some (dc + 1)) (st.distance p) = true
        · obtain ⟨k1, k2, k3, k4, k5⟩ := T2 hclp hlt
          rw [hpq] at k2
          rw [Option.some_inj] at k2
          subst k2
          exact ⟨(hlv p).mp hpl, by rw [hc6]; exact List.mem_cons_self _ _,
            dc + 1, dc, k1, hdist_cur6, rfl⟩
        · obtain ⟨k1, k2, k3, k4⟩ := T3 hclp hlt
          obtain ⟨hvs, hqcl, dp, dq, hdp, hdq, he⟩ := hInv.par_chain p q (k2 ▸ hpq)
          exact ⟨hvs, by rw [hc6]; exact List.mem_cons_of_mem cur hqcl,
            dp, dq, k1 ▸ hdp, (hclosed_dist q hqcl) ▸ hdq, he⟩
    · obtain ⟨k1, k2, k3, k4⟩ := untouched p hpl
      obtain ⟨hvs, hqcl, dp, dq, hdp, hdq, he⟩ := hInv.par_chain p q (k2 ▸ hpq)
      exact ⟨hvs, by rw [hc6]; exact List.mem_cons_of_mem cur hqcl,
        dp, dq, k1 ▸ hdp, (hclosed_dist q hqcl) ▸ hdq, he⟩
  case par_some =>
    intro p d hd
    by_cases hpl : p ∈ l
    · obtain ⟨T1, T2, T3⟩ := trich p hpl
      by_cases hclp : p ∈ st.closedSet
      · obtain ⟨k1, k2, k3, k4⟩ := T1 hclp
        rcases hInv.par_some p d (k1 ▸ hd) with h | ⟨q, hq⟩
        · exact Or.inl h
        · exact Or.inr ⟨q, k2 ▸ hq⟩
      · by_cases hlt : infLT (some (dc + 1)) (st.distance p) = true
        · exact Or.inr ⟨cur, (T2 hclp hlt).2.1⟩
        · obtain ⟨k1, k2, k3, k4⟩ := T3 hclp hlt
          rcases hInv.par_some p d (k1 ▸ hd) with h | ⟨q, hq⟩
          · exact Or.inl h
          · exact Or.inr ⟨q, k2 ▸ hq⟩
    · obtain ⟨k1, k2, k3, k4⟩ := untouched p hpl
      rcases hInv.par_some p d (k1 ▸ hd) with h | ⟨q, hq⟩
      · exact Or.inl h
      · exact Or.inr ⟨q, k2 ▸ hq⟩



lemma found_inv {w : SPos → Bool} {algo : AlgorithmType} {st : SearchState}
    {rest : List SPos} (hInv : SInv w algo st)
    (hsort : List.insertionSort
        (fun a b => infLE (sortKey algo st a) (sortKey algo st b) = true) st.openSet
      = goalCell :: rest) :
    FoundInv w (popState st goalCell rest) := by
  obtain ⟨dg, hdg, hrealg, hming⟩ := pop_shortest hInv hsort
  have hdistInB : ∀ p d, st.distance p = some d → inBounds p = true := by
    intro p d hd
    rcases hInv.dist_mem p d hd with h | h
    · exact (hInv.open_ok p h).1
    · exact (hInv.closed_ok p h).1
  refine ⟨⟨dg, hdg, hrealg, hming⟩, hInv.dist_start, hInv.dist_real, hdistInB, ?_, ?_, ?_, ?_⟩
  · intro p q hpq
    obtain ⟨hvs, -, hrest⟩ := hInv.par_chain p q hpq
    exact ⟨hvs, hrest⟩
  · exact hInv.par_some
  · exact hInv.start_state
  · exact hInv.goal_state

/-- When the open set is empty, every reachable node is closed. -/
lemma exhausted_closure {w : SPos → Bool} {algo : AlgorithmType} {st : SearchState}
    (hInv : SInv w algo st) (hopen : st.openSet = []) :
    ∀ z n, PathTo w startCell z n → z ∈ st.closedSet := by
  intro z n hp
  induction hp with
  | refl =>
    rcases hInv.start_mem with h | h
    · rw [hopen] at h
      simp at h
    · exact h
  | snoc hp hstep ih =>
    obtain ⟨hmem, -⟩ := hInv.closed_exp _ ih _ hstep
    rcases hmem with h | h
    · exact h
    · rw [hopen] at h
      simp at h

/-- The master theorem about the search loop: with the fuel budget it
never runs out of fuel, a successful exit satisfies `FoundInv`, and an
exhausted exit leaves a valid invariant state with an empty open set and
untouched result statistics. -/
lemma searchLoop_spec (w : SPos → Bool) (algo : AlgorithmType) :
    ∀ (fuel : Nat) (st : SearchState), SInv w algo st →
      GRID_SIZE * GRID_SIZE + 1 ≤ fuel + st.closedSet.length →
      ((∀ st', searchLoop algo fuel st ≠ LoopResult.outOfFuel st') ∧
       (∀ st', searchLoop algo fuel st = LoopResult.found st' → FoundInv w st') ∧
       (∀ st', searchLoop algo fuel st = LoopResult.exhausted st' →
          SInv w algo st' ∧ st'.openSet = [] ∧
          st'.stats.pathLength = st.stats.pathLength ∧
          st'.stats.optimalPath = st.stats.optimalPath ∧
          st'.stats.efficiency = st.stats.efficiency)) := by
  intro fuel
  induction fuel with
  | zero =>
    intro st hInv hbound
    have hb := nodup_inBounds_length_le hInv.closed_nodup
      (fun p hp => (hInv.closed_ok p hp).1)
    refine ⟨?_, ?_, ?_⟩ <;> intro st' heq <;> exfalso <;> omega
  | succ fuel ih =>
    intro st hInv hbound
    cases hsort : List.insertionSort
        (fun a b => infLE (sortKey algo st a) (sortKey algo st b) = true) st.openSet with
    | nil =>
      have hopen : st.openSet = [] := by
        have hperm := List.perm_insertionSort
          (fun a b => infLE (sortKey algo st a) (sortKey algo st b) = true) st.openSet
        rw [hsort] at hperm
        exact (List.perm_nil.mp hperm.symm)
      refine ⟨?_, ?_, ?_⟩ <;> intro st' heq <;> rw [searchLoop_succ, hsort] at heq
      · exact LoopResult.noConfusion heq
      · exact LoopResult.noConfusion heq
      · injection heq with h
        subst h
        exact ⟨hInv, hopen, rfl, rfl, rfl⟩
    | cons cur rest =>
      by_cases hg : cur = goalCell
      · subst hg
        refine ⟨?_, ?_, ?_⟩ <;> intro st' heq <;>
          (rw [searchLoop_succ, hsort] at heq; dsimp only at heq; rw [if_pos rfl] at heq)
        · exact LoopResult.noConfusion heq
        · injection heq with h
          subst h
          exact found_inv hInv hsort
        · exact LoopResult.noConfusion heq
      · obtain ⟨hInv6, hc6, hs1, hs2, hs3⟩ := iterStep_SInv hInv hsort hg
        have hbound' : GRID_SIZE * GRID_SIZE + 1 ≤
            fuel + (iterStep algo st cur rest).closedSet.length := by
          rw [hc6]
          simp only [List.length_cons]
          omega
        obtain ⟨IH1, IH2, IH3⟩ := ih (iterStep algo st cur rest) hInv6 hbound'
        refine ⟨?_, ?_, ?_⟩ <;> intro st' heq <;>
          (rw [searchLoop_succ, hsort] at heq; dsimp only at heq; rw [if_neg hg] at heq)
        · exact IH1 st' heq
        · exact IH2 st' heq
        · obtain ⟨a1, a2, a3, a4, a5⟩ := IH3 st' heq
          exact ⟨a1, a2, a3.trans hs1, a4.trans hs2, a5.trans hs3⟩

end MazeGame

namespace MazeGame

/-- Following parent links, every node with a finite recorded distance
heads a duplicate-free chain of `d + 1` nodes, so `d + 1` is at most the
number of grid cells. -/
lemma chain_bound {w : SPos → Bool} {st : SearchState} (hF : FoundInv w st) :
    ∀ dp p, st.distance p = some dp → dp + 1 ≤ GRID_SIZE * GRID_SIZE := by
  suffices h : ∀ dp p, st.distance p = some dp →
      ∃ c : List SPos, c.Nodup ∧ c.length = dp + 1 ∧
        ∀ v ∈ c, ∃ dv, st.distance v = some dv ∧ dv ≤ dp by
    intro dp p hd
    obtain ⟨c, hnd, hlen, hmem⟩ := h dp p hd
    have hble := nodup_inBounds_length_le hnd (fun v hv => by
      obtain ⟨dv, hdv, -⟩ := hmem v hv
      exact hF.dist_inB v dv hdv)
    omega
  intro dp
  induction dp with
  | zero =>
    intro p hd
    refine ⟨[p], List.nodup_singleton _, rfl, ?_⟩
    intro v hv
    rw [List.mem_singleton] at hv
    subst hv
    exact ⟨0, hd, le_refl _⟩
  | succ n ihn =>
    intro p hd
    rcases hF.par_some p (n + 1) hd with h | ⟨q, hq⟩
    · rw [h, hF.dist_start] at hd
      rw [Option.some_inj] at hd
      omega
    · obtain ⟨-, dp', dq, hdp', hdq, he⟩ := hF.par_chain p q hq
      rw [hd] at hdp'
      rw [Option.some_inj] at hdp'
      have hdqn : st.distance q = some n := by
        rw [hdq]
        congr 1
        omega
      obtain ⟨c, hnd, hlen, hmem⟩ := ihn q hdqn
      refine ⟨p :: c, ?_, by simp [hlen], ?_⟩
      · rw [List.nodup_cons]
        refine ⟨?_, hnd⟩
        intro hpc
        obtain ⟨dv, hdv, hle⟩ := hmem p hpc
        rw [hd] at hdv
        rw [Option.some_inj] at hdv
        omega
      · intro v hv
        rcases List.mem_cons.mp hv with hv | hv
        · subst hv
          exact ⟨n + 1, hd, le_refl _⟩
        · obtain ⟨dv, hdv, hle⟩ := hmem v hv
          exact ⟨dv, hdv, by omega⟩

set_option maxHeartbeats 1000000 in
/-- Correctness of the path-reconstruction loop: from any node with a
finite recorded distance `dp` and enough fuel, the walk terminates,
produces the parent chain from the start to that node (length `dp + 1`),
marks exactly the chain nodes other than the start/goal cells as `path`,
and leaves distances and parents untouched. -/
lemma pathWalk_spec {w : SPos → Bool} {stf : SearchState} (hF : FoundInv w stf) :
    ∀ (dp : Nat) (st : SearchState) (p : SPos) (acc : List SPos) (fuel : Nat),
      st.parent = stf.parent → st.distance = stf.distance →
      (∀ q, st.nstate q = NodeState.start ↔ q = startCell) →
      (∀ q, st.nstate q = NodeState.goal ↔ q = goalCell) →
      stf.distance p = some dp → dp < fuel →
      ∃ st' chain, pathWalk fuel st (some p) acc = some (st', chain ++ acc) ∧
        chain ≠ [] ∧ chain.head? = some startCell ∧ chain.getLast? = some p ∧
        chain.length = dp + 1 ∧ List.Chain' (ValidStep w) chain ∧
        List.Chain' (fun a b => stf.parent b = some a) chain ∧
        (∀ v ∈ chain, ∃ dv, stf.distance v = some dv ∧ dv ≤ dp) ∧
        st'.parent = stf.parent ∧ st'.distance = stf.distance ∧
        (∀ q, st'.nstate q =
          if q ∈ chain ∧ q ≠ startCell ∧ q ≠ goalCell then NodeState.path
          else st.nstate q) := by
  intro dp
  induction dp with
  | zero =>
    intro st p acc fuel hpar hdist hss hgs hd hfuel
    obtain ⟨f, rfl⟩ : ∃ f, fuel = f + 1 := ⟨fuel - 1, by omega⟩
    have hps : p = startCell := (PathTo.eq_of_zero (hF.dist_real p 0 hd)).symm
    have hparp : stf.parent p = none := by
      cases hpn : stf.parent p with
      | none => rfl
      | some q =>
        exfalso
        obtain ⟨-, dp', dq, hdp', hdq, he⟩ := hF.par_chain p q hpn
        rw [hd] at hdp'
        rw [Option.some_inj] at hdp'
        omega
    have hguard : ¬ (st.nstate p ≠ NodeState.start ∧ st.nstate p ≠ NodeState.goal) := by
      intro hcon
      exact hcon.1 ((hss p).mpr hps)
    refine ⟨st, [p], ?_, by simp, by simp [hps], rfl, rfl, ?_, ?_, ?_, hpar, hdist, ?_⟩
    · show pathWalk (f + 1) st (some p) acc = some (st, [p] ++ acc)
      unfold pathWalk
      dsimp only
      rw [if_neg hguard]
      rw [show st.parent p = none from by rw [hpar]; exact hparp]
      cases f with
      | zero => rfl
      | succ f' => rfl
    · exact List.chain'_singleton _
    · exact List.chain'_singleton _
    · intro v hv
      rw [List.mem_singleton] at hv
      subst hv
      exact ⟨0, hd, le_refl _⟩
    · intro q
      rw [if_neg ?_]
      intro hcon
      rw [List.mem_singleton] at hcon
      exact hcon.2.1 (hcon.1.trans hps)
  | succ n ihn =>
    intro st p acc fuel hpar hdist hss hgs hd hfuel
    obtain ⟨f, rfl⟩ : ∃ f, fuel = f + 1 := ⟨fuel - 1, by omega⟩
    have hpns : p ≠ startCell := by
      intro hc
      rw [hc, hF.dist_start] at hd
      rw [Option.some_inj] at hd
      omega
    obtain ⟨q, hq⟩ := (hF.par_some p (n + 1) hd).resolve_left hpns
    obtain ⟨hvs, dp', dq, hdp', hdq, he⟩ := hF.par_chain p q hq
    rw [hd] at hdp'
    rw [Option.some_inj] at hdp'
    have hdqn : stf.distance q = some n := by
      rw [hdq]
      congr 1
      omega
    -- the marked state after visiting p
    set stM : SearchState :=
      if st.nstate p ≠ NodeState.start ∧ st.nstate p ≠ NodeState.goal then
        { st with nstate := fun r => if r = p then NodeState.path else st.nstate r }
      else st with hstM
    have hMpar : stM.parent = stf.parent := by
      rw [hstM]
      split_ifs <;> exact hpar
    have hMdist : stM.distance = stf.distance := by
      rw [hstM]
      split_ifs <;> exact hdist
    have hMn : ∀ r, stM.nstate r =
        if r = p ∧ p ≠ startCell ∧ p ≠ goalCell then NodeState.path else st.nstate r := by
      intro r
      rw [hstM]
      have hgiff : (st.nstate p ≠ NodeState.start ∧ st.nstate p ≠ NodeState.goal)
          ↔ (p ≠ startCell ∧ p ≠ goalCell) := by
        constructor
        · intro h
          exact ⟨fun hc => h.1 ((hss p).mpr hc), fun hc => h.2 ((hgs p).mpr hc)⟩
        · intro h
          exact ⟨fun hc => h.1 ((hss p).mp hc), fun hc => h.2 ((hgs p).mp hc)⟩
      split_ifs with h1 h2 h3 <;> simp_all
    have hMss : ∀ r, stM.nstate r = NodeState.start ↔ r = startCell := by
      intro r
      rw [hMn r]
      split_ifs with h
      · constructor
        · intro hc
          exact absurd hc (by simp)
        · intro hc
          exact absurd (h.1.symm.trans hc) h.2.1
      · exact hss r
    have hMgs : ∀ r, stM.nstate r = NodeState.goal ↔ r = goalCell := by
      intro r
      rw [hMn r]
      split_ifs with h
      · constructor
        · intro hc
          exact absurd hc (by simp)
        · intro hc
          exact absurd (h.1.symm.trans hc) h.2.2
      · exact hgs r
    obtain ⟨st', chainQ, heq, hchne, hchhd, hchlast, hchlen, hchsteps, hchpar, hchmem,
      hpar', hdist', hnst'⟩ := ihn stM q (p :: acc) f hMpar hMdist hMss hMgs hdqn (by omega)
    have hpnotin : p ∉ chainQ := by
      intro hc
      obtain ⟨dv, hdv, hle⟩ := hchmem p hc
      rw [hd] at hdv
      rw [Option.some_inj] at hdv
      omega
    refine ⟨st', chainQ ++ [p], ?_, by simp, ?_, ?_, ?_, ?_, ?_, ?_, hpar', hdist', ?_⟩
    · show pathWalk (f + 1) st (some p) acc = some (st', (chainQ ++ [p]) ++ acc)
      unfold pathWalk
      dsimp only
      rw [← hstM]
      rw [show stM.parent p = some q from by rw [hMpar]; exact hq]
      rw [heq]
      rw [List.append_assoc]
      rfl
    · rw [List.head?_append_of_ne_nil _ hchne]
      exact hchhd
    · exact List.getLast?_concat _
    · simp [hchlen]
    · rw [List.chain'_append]
      refine ⟨hchsteps, List.chain'_singleton _, ?_⟩
      intro x hx y hy
      rw [hchlast] at hx
      rw [Option.mem_def, Option.some_inj] at hx
      simp only [List.head?_cons, Option.mem_def, Option.some_inj] at hy
      subst hx
      subst hy
      exact hvs
    · rw [List.chain'_append]
      refine ⟨hchpar, List.chain'_singleton _, ?_⟩
      intro x hx y hy
      rw [hchlast] at hx
      rw [Option.mem_def, Option.some_inj] at hx
      simp only [List.head?_cons, Option.mem_def, Option.some_inj] at hy
      subst hx
      subst hy
      exact hq
    · intro v hv
      rcases List.mem_append.mp hv with hv | hv
      · obtain ⟨dv, hdv, hle⟩ := hchmem v hv
        exact ⟨dv, hdv, by omega⟩
      · rw [List.mem_singleton] at hv
        subst hv
        exact ⟨n + 1, hd, le_refl _⟩
    · intro r
      rw [hnst' r, hMn r]
      by_cases h1 : r ∈ chainQ ∧ r ≠ startCell ∧ r ≠ goalCell
      · rw [if_pos h1, if_pos ⟨List.mem_append.mpr (Or.inl h1.1), h1.2⟩]
      · rw [if_neg h1]
        by_cases h2 : r = p ∧ p ≠ startCell ∧ p ≠ goalCell
        · rw [if_pos h2, if_pos ⟨List.mem_append.mpr (Or.inr (by simp [h2.1])),
            h2.1 ▸ h2.2⟩]
        · rw [if_neg h2, if_neg ?_]
          intro hcon
          obtain ⟨hmem', hne⟩ := hcon
          rcases List.mem_append.mp hmem' with hm | hm
          · exact h1 ⟨hm, hne⟩
          · rw [List.mem_singleton] at hm
            exact h2 ⟨hm, hm ▸ hne⟩

end MazeGame

namespace MazeGame

set_option maxHeartbeats 1000000 in
/-- Consolidated behaviour of `runAlgorithm` on grids whose start/goal
corners are not walls. -/
lemma runAlgorithm_spec (w : SPos → Bool) (algo : AlgorithmType) (prev : AlgorithmStats)
    (hs : w startCell = false) (hg : w goalCell = false) :
    (runAlgorithm w algo prev).ranOutOfFuel = false ∧
    ((runAlgorithm w algo prev).pathFound = false →
        (runAlgorithm w algo prev).stats.pathLength = prev.pathLength ∧
        (runAlgorithm w algo prev).path = []) ∧
    ((runAlgorithm w algo prev).pathFound = true →
        ∃ d, IsShortestPathLength w startCell goalCell d ∧
          (runAlgorithm w algo prev).stats.pathLength = d ∧
          (runAlgorithm w algo prev).path ≠ [] ∧
          (runAlgorithm w algo prev).path.head? = some startCell ∧
          (runAlgorithm w algo prev).path.getLast? = some goalCell ∧
          (runAlgorithm w algo prev).path.length = d + 1 ∧
          List.Chain' (ValidStep w) (runAlgorithm w algo prev).path ∧
          List.Chain' (fun a b => (runAlgorithm w algo prev).final.parent b = some a)
            (runAlgorithm w algo prev).path ∧
          (∀ v ∈ (runAlgorithm w algo prev).path, v ≠ startCell → v ≠ goalCell →
            (runAlgorithm w algo prev).final.nstate v = NodeState.path) ∧
          (runAlgorithm w algo prev).final.nstate startCell = NodeState.start ∧
          (runAlgorithm w algo prev).final.nstate goalCell = NodeState.goal) ∧
    ((algo = AlgorithmType.dijkstra ∨ algo = AlgorithmType.astar) →
      Reaches w startCell goalCell → (runAlgorithm w algo prev).pathFound = true) := by
  by_cases halgo : algo = AlgorithmType.dijkstra ∨ algo = AlgorithmType.astar
  · have hInv0 := initial_SInv w algo prev hs hg
    have hbound : GRID_SIZE * GRID_SIZE + 1 ≤
        searchFuel + (initialSearchState w algo prev).closedSet.length := by
      unfold searchFuel
      simp [initialSearchState]
    obtain ⟨S1, S2, S3⟩ := searchLoop_spec w algo searchFuel
      (initialSearchState w algo prev) hInv0 hbound
    cases hloop : searchLoop algo searchFuel (initialSearchState w algo prev) with
    | outOfFuel st' => exact absurd hloop (S1 st')
    | exhausted st' =>
      obtain ⟨hInv', hopen', hpl, hop, heff⟩ := S3 st' hloop
      have hrun : runAlgorithm w algo prev =
          { pathFound := false, stats := st'.stats, final := st', path := [],
            ranOutOfFuel := false } := by
        unfold runAlgorithm
        rw [if_pos halgo, hloop]
      rw [hrun]
      refine ⟨rfl, ?_, ?_, ?_⟩
      · intro _
        refine ⟨?_, rfl⟩
        dsimp only
        rw [hpl]
        rfl
      · intro hcon
        exact absurd hcon (by simp)
      · intro _ hreach
        exfalso
        obtain ⟨nn, hp⟩ := hreach
        exact hInv'.goal_unclosed (exhausted_closure hInv' hopen' goalCell nn hp)
    | found st' =>
      have hF := S2 st' hloop
      obtain ⟨d, hd, hrealg, hming⟩ := hF.dist_goal
      have hdle := chain_bound hF d goalCell hd
      obtain ⟨stW, chain, heqW, hchne, hchhd, hchlast, hchlen, hchsteps, hchpar, hchmem,
        hparW, hdistW, hnstW⟩ := pathWalk_spec hF d st' goalCell [] searchFuel
        rfl rfl hF.start_state hF.goal_state hd
        (by unfold searchFuel GRID_SIZE; unfold GRID_SIZE at hdle; omega)
      rw [List.append_nil] at heqW
      have hrun : runAlgorithm w algo prev =
          { pathFound := true,
            stats := { nodesExplored := st'.nodesExplored, pathLength := chain.length - 1,
                       optimalPath := chain.length - 1 ≤ 35,
                       efficiency := efficiencyStat st'.nodesExplored },
            final := stW, path := chain, ranOutOfFuel := false } := by
        unfold runAlgorithm
        rw [if_pos halgo, hloop]
        dsimp only
        rw [heqW]
      rw [hrun]
      refine ⟨rfl, ?_, ?_, ?_⟩
      · intro hcon
        exact absurd hcon (by simp)
      · intro _
        refine ⟨d, ⟨hrealg, hming⟩, ?_, hchne, hchhd, hchlast, hchlen, hchsteps, ?_,
          ?_, ?_, ?_⟩
        · dsimp only
          rw [hchlen]
          omega
        · show List.Chain' (fun a b => stW.parent b = some a) chain
          rw [hparW]
          exact hchpar
        · intro v hv hvs hvg
          dsimp only
          rw [hnstW v, if_pos ⟨hv, hvs, hvg⟩]
        · dsimp only
          rw [hnstW startCell, if_neg (by intro hcon; exact hcon.2.1 rfl)]
          exact (hF.start_state startCell).mpr rfl
        · dsimp only
          rw [hnstW goalCell, if_neg (by intro hcon; exact hcon.2.2 rfl)]
          exact (hF.goal_state goalCell).mpr rfl
      · intro _ _
        rfl
  · have hrun : runAlgorithm w algo prev =
        { pathFound := false, stats := prev,
          final := initialSearchState w algo prev, path := [], ranOutOfFuel := false } := by
      unfold runAlgorithm
      rw [if_neg halgo]
    rw [hrun]
    refine ⟨rfl, ?_, ?_, ?_⟩
    · intro _
      exact ⟨rfl, rfl⟩
    · intro hcon
      exact absurd hcon (by simp)
    · intro hcon
      exact absurd hcon halgo

end MazeGame

namespace MazeGame


/-- Claim C2: on every grid (start/goal corners not walls, as generated)
on which the goal is reachable, the Dijkstra run and the A* run both find
a path, report the same path length, and that length is the optimal
shortest-path length. -/
theorem dijkstra_astar_same_optimal (w : SPos → Bool)
    (hs : w startCell = false) (hg : w goalCell = false)
    (hreach : Reaches w startCell goalCell) (prev₁ prev₂ : AlgorithmStats) :
    (runAlgorithm w AlgorithmType.dijkstra prev₁).pathFound = true ∧
    (runAlgorithm w AlgorithmType.astar prev₂).pathFound = true ∧
    (runAlgorithm w AlgorithmType.dijkstra prev₁).stats.pathLength =
      (runAlgorithm w AlgorithmType.astar prev₂).stats.pathLength ∧
    IsShortestPathLength w startCell goalCell
      ((runAlgorithm w AlgorithmType.dijkstra prev₁).stats.pathLength) := by
  obtain ⟨-, -, hfound₁, hreach₁⟩ := runAlgorithm_spec w AlgorithmType.dijkstra prev₁ hs hg
  obtain ⟨-, -, hfound₂, hreach₂⟩ := runAlgorithm_spec w AlgorithmType.astar prev₂ hs hg
  have hfd := hreach₁ (Or.inl rfl) hreach
  have hfa := hreach₂ (Or.inr rfl) hreach
  obtain ⟨d₁, hshort₁, hpl₁, -⟩ := hfound₁ hfd
  obtain ⟨d₂, hshort₂, hpl₂, -⟩ := hfound₂ hfa
  have hdd : d₁ = d₂ :=
    Nat.le_antisymm (hshort₁.2 d₂ hshort₂.1) (hshort₂.2 d₁ hshort₁.1)
  refine ⟨hfd, hfa, ?_, ?_⟩
  · rw [hpl₁, hpl₂, hdd]
  · rw [hpl₁]
    exact hshort₁

theorem dijkstra_astar_same_optimal_witness :
    (runAlgorithm noWalls AlgorithmType.dijkstra zeroStats).pathFound = true ∧
    (runAlgorithm noWalls AlgorithmType.astar prevStats5).pathFound = true ∧
    (runAlgorithm noWalls AlgorithmType.dijkstra zeroStats).stats.pathLength =
      (runAlgorithm noWalls AlgorithmType.astar prevStats5).stats.pathLength := by
  have hp := pathTo_of_stepsOk (w := noWalls) corridorPath startCell (by decide)
  rw [show corridorPath.getLastD startCell = goalCell from by decide] at hp
  have h := dijkstra_astar_same_optimal noWalls rfl rfl ⟨corridorPath.length, hp⟩
    zeroStats prevStats5
  exact ⟨h.1, h.2.1, h.2.2.1⟩

/-- Claim C6 (counterexample): on a grid whose start corner is walled in,
the Dijkstra run terminates with no path found, but the stats record is
NOT set to path length 0 — it keeps the previous record's path length
(here 5). -/
theorem no_path_stats_counterexample :
    (runAlgorithm wallsAroundStart AlgorithmType.dijkstra prevStats5).pathFound = false ∧
    (runAlgorithm wallsAroundStart AlgorithmType.dijkstra prevStats5).stats.pathLength = 5 ∧
    ¬ (runAlgorithm wallsAroundStart AlgorithmType.dijkstra prevStats5).stats.pathLength
        = 0 := by
  decide

/-- Claim C6 (amended): when the search fails to reach the goal the run
terminates normally (never by fuel exhaustion in the embedding), returns
an empty path, and leaves the previous stats record's path length
unchanged — which is 0 exactly when the statistics were in their
initial/reset state, as they are in every reachable failing run. -/
theorem no_path_normal_outcome (w : SPos → Bool) (algo : AlgorithmType)
    (prev : AlgorithmStats) (hs : w startCell = false) (hg : w goalCell = false)
    (hfail : (runAlgorithm w algo prev).pathFound = false) :
    (runAlgorithm w algo prev).ranOutOfFuel = false ∧
    (runAlgorithm w algo prev).path = [] ∧
    (runAlgorithm w algo prev).stats.pathLength = prev.pathLength ∧
    (prev.pathLength = 0 → (runAlgorithm w algo prev).stats.pathLength = 0) := by
  obtain ⟨h1, h2, -, -⟩ := runAlgorithm_spec w algo prev hs hg
  obtain ⟨hpl, hpath⟩ := h2 hfail
  refine ⟨h1, hpath, hpl, ?_⟩
  intro h
  rw [hpl, h]

theorem no_path_normal_outcome_witness :
    (runAlgorithm wallsAroundStart AlgorithmType.dijkstra zeroStats).ranOutOfFuel = false ∧
    (runAlgorithm wallsAroundStart AlgorithmType.dijkstra zeroStats).stats.pathLength = 0 := by
  have h := no_path_normal_outcome wallsAroundStart AlgorithmType.dijkstra zeroStats
    (by decide) (by decide) (by decide)
  exact ⟨h.1, h.2.2.2 rfl⟩

/-- Claim C9: on a successful search the reconstructed path is the
parent chain walked from the goal back to the start (so it runs from the
start cell to the goal cell along admissible steps, linked by the parent
map), every node on it other than the start/goal endpoints is marked with
the `path` state while the endpoints keep their labels, and the reported
path-length statistic is the number of edges of the path (one less than
its number of nodes). -/
theorem path_reconstruction (w : SPos → Bool) (algo : AlgorithmType)
    (prev : AlgorithmStats) (hs : w startCell = false) (hg : w goalCell = false)
    (hfound : (runAlgorithm w algo prev).pathFound = true) :
    (runAlgorithm w algo prev).ranOutOfFuel = false ∧
    (runAlgorithm w algo prev).path ≠ [] ∧
    (runAlgorithm w algo prev).path.head? = some startCell ∧
    (runAlgorithm w algo prev).path.getLast? = some goalCell ∧
    List.Chain' (fun a b => (runAlgorithm w algo prev).final.parent b = some a)
      (runAlgorithm w algo prev).path ∧
    List.Chain' (ValidStep w) (runAlgorithm w algo prev).path ∧
    (runAlgorithm w algo prev).stats.pathLength
      = (runAlgorithm w algo prev).path.length - 1 ∧
    (∀ v ∈ (runAlgorithm w algo prev).path, v ≠ startCell → v ≠ goalCell →
      (runAlgorithm w algo prev).final.nstate v = NodeState.path) ∧
    (runAlgorithm w algo prev).final.nstate startCell = NodeState.start ∧
    (runAlgorithm w algo prev).final.nstate goalCell = NodeState.goal := by
  obtain ⟨h1, -, h3, -⟩ := runAlgorithm_spec w algo prev hs hg
  obtain ⟨d, hshort, hpl, hne, hhd, hlast, hlen, hsteps, hpar, hmark, hst, hgl⟩ := h3 hfound
  refine ⟨h1, hne, hhd, hlast, hpar, hsteps, ?_, hmark, hst, hgl⟩
  rw [hpl, hlen]
  omega

theorem path_reconstruction_witness :
    (runAlgorithm corridorWalls AlgorithmType.dijkstra zeroStats).path.head?
      = some startCell ∧
    (runAlgorithm corridorWalls AlgorithmType.dijkstra zeroStats).path.getLast?
      = some goalCell ∧
    (runAlgorithm corridorWalls AlgorithmType.dijkstra zeroStats).stats.pathLength
      = (runAlgorithm corridorWalls AlgorithmType.dijkstra zeroStats).path.length - 1 := by
  have h := path_reconstruction corridorWalls AlgorithmType.dijkstra zeroStats
    (by decide) (by decide) (by decide)
  exact ⟨h.2.2.1, h.2.2.2.1, h.2.2.2.2.2.2.1⟩

end MazeGame
